import Mathlib

/-!
# psi-register: the Entry Store and its data preparation

A shallow embedding of `src/App.jsx` (the React component `App`) and of the
parts of the JavaScript `Date`, `Array.prototype.sort` and `||` semantics that
its handlers rely on.

Conventions of the embedding

* A JavaScript time value is `Option Int`: milliseconds since the epoch, with
  `none` standing for `NaN` (an `Invalid Date`).
* The local time zone is a fixed UTC offset `tz`, in minutes east of UTC
  (no daylight-saving transitions).
* `new Date(s)` is modelled on the two string shapes the application itself
  produces: `YYYY-MM-DDTHH:mm` (the value of a `datetime-local` input, read as
  local time) and `YYYY-MM-DD` (read as UTC). Every other string is an
  `Invalid Date` in the model.
* React state is passed explicitly: a handler takes the state it closes over
  and returns the state after its `setEntries` / `localStorage.setItem` calls.
* `localStorage.setItem('entries', JSON.stringify(xs))` stores the list `xs`
  itself; `JSON.stringify` followed by `JSON.parse` is the identity on the
  entries of the model (strings, integers and absent fields).
-/

namespace PsiRegister

/-! ## Calendar arithmetic behind `Date` -/

/-- Milliseconds in a minute. -/
def msPerMinute : Int := 60000

/-- Milliseconds in a day. -/
def msPerDay : Int := 86400000

/-- Proleptic Gregorian date `(year, month 1..12, day 1..31)` of a day number
counted from 1970-01-01, as `YearFromTime`, `MonthFromTime` and `DateFromTime`
compute it. -/
def civilFromDays (z : Int) : Int × Int × Int :=
  let z := z + 719468
  let era := z / 146097
  let doe := z - era * 146097
  let yoe := (doe - doe / 1460 + doe / 36524 - doe / 146096) / 365
  let doy := doe - (365 * yoe + yoe / 4 - yoe / 100)
  let mp := (5 * doy + 2) / 153
  let d := doy - (153 * mp + 2) / 5 + 1
  let m := if mp < 10 then mp + 3 else mp - 9
  (if m ≤ 2 then yoe + era * 400 + 1 else yoe + era * 400, m, d)

/-- Day number counted from 1970-01-01 of a proleptic Gregorian date, as
`MakeDay` computes it (a day past the end of the month runs into the next). -/
def daysFromCivil (y m d : Int) : Int :=
  let y := if m ≤ 2 then y - 1 else y
  let era := y / 400
  let yoe := y - era * 400
  let doy := (153 * (if m > 2 then m - 3 else m + 9) + 2) / 5 + d - 1
  let doe := yoe * 365 + yoe / 4 - yoe / 100 + doy
  era * 146097 + doe - 719468

/-! ## Decimal fields of date strings -/

/-- Value of a decimal digit character. -/
def digitVal (c : Char) : Option Nat :=
  if 48 ≤ c.toNat ∧ c.toNat ≤ 57 then some (c.toNat - 48) else none

/-- Two-digit zero-padded field. -/
def pad2 (n : Nat) : List Char :=
  [Nat.digitChar (n / 10 % 10), Nat.digitChar (n % 10)]

/-- Three-digit zero-padded field. -/
def pad3 (n : Nat) : List Char :=
  [Nat.digitChar (n / 100 % 10), Nat.digitChar (n / 10 % 10), Nat.digitChar (n % 10)]

/-- Four-digit zero-padded field. -/
def pad4 (n : Nat) : List Char :=
  [Nat.digitChar (n / 1000 % 10), Nat.digitChar (n / 100 % 10),
   Nat.digitChar (n / 10 % 10), Nat.digitChar (n % 10)]

/-- Six-digit zero-padded field (expanded years). -/
def pad6 (n : Nat) : List Char :=
  [Nat.digitChar (n / 100000 % 10), Nat.digitChar (n / 10000 % 10),
   Nat.digitChar (n / 1000 % 10), Nat.digitChar (n / 100 % 10),
   Nat.digitChar (n / 10 % 10), Nat.digitChar (n % 10)]

/-- Two-digit numeric field of a date string. -/
def num2 (a b : Char) : Option Nat := do
  let x ← digitVal a
  let y ← digitVal b
  pure (10 * x + y)

/-- Four-digit numeric field of a date string. -/
def num4 (a b c d : Char) : Option Nat := do
  let w ← digitVal a
  let x ← digitVal b
  let y ← digitVal c
  let z ← digitVal d
  pure (1000 * w + 100 * x + 10 * y + z)

/-! ## The `Date` operations used by `App.jsx` -/

/-- Time value of the wall-clock fields of a date-time string, read as UTC:
`MakeDate(MakeDay(y, mo - 1, d), MakeTime(h, mi, 0, 0))`, or `none` when a
field is out of its range (`MM` 01..12, `DD` 01..31, `HH:mm` 00:00..24:00). -/
def makeDate (y mo d h mi : Nat) : Option Int :=
  if 1 ≤ mo ∧ mo ≤ 12 ∧ 1 ≤ d ∧ d ≤ 31 ∧ ((h ≤ 23 ∧ mi ≤ 59) ∨ (h = 24 ∧ mi = 0)) then
    some (daysFromCivil y mo d * msPerDay + ((h : Int) * 60 + mi) * msPerMinute)
  else none

/-- Wall-clock reading of `YYYY-MM-DDTHH:mm`, as a UTC time value. -/
def parseDateTime : List Char → Option Int
  | [y1, y2, y3, y4, s1, m1, m2, s2, d1, d2, sT, h1, h2, sC, n1, n2] =>
    if s1 = '-' ∧ s2 = '-' ∧ sT = 'T' ∧ sC = ':' then do
      let y ← num4 y1 y2 y3 y4
      let mo ← num2 m1 m2
      let d ← num2 d1 d2
      let h ← num2 h1 h2
      let mi ← num2 n1 n2
      makeDate y mo d h mi
    else none
  | _ => none

/-- Time value of the date-only form `YYYY-MM-DD` (UTC midnight). -/
def parseDateOnly : List Char → Option Int
  | [y1, y2, y3, y4, s1, m1, m2, s2, d1, d2] =>
    if s1 = '-' ∧ s2 = '-' then do
      let y ← num4 y1 y2 y3 y4
      let mo ← num2 m1 m2
      let d ← num2 d1 d2
      makeDate y mo d 0 0
    else none
  | _ => none

/-- Model of `new Date(s)` (its time value): a date-time without offset is
local time, a date-only string is UTC, anything else is an `Invalid Date`. -/
def newDate (tz : Int) (s : String) : Option Int :=
  match parseDateTime s.data with
  | some t => some (t - tz * msPerMinute)
  | none => parseDateOnly s.data

/-- Year field of `toISOString`: four digits for 0..9999, otherwise a sign and
six digits. -/
def isoYear (y : Int) : List Char :=
  if 0 ≤ y ∧ y ≤ 9999 then pad4 y.toNat
  else (if y < 0 then '-' else '+') :: pad6 y.natAbs

/-- Model of `Date.prototype.toISOString` on a valid time value:
`YYYY-MM-DDTHH:mm:ss.sssZ` in UTC. -/
def toISOString (t : Int) : String :=
  let c := civilFromDays (t / msPerDay)
  let ms := t % msPerDay
  String.mk (isoYear c.1 ++ '-' :: pad2 c.2.1.toNat ++ '-' :: pad2 c.2.2.toNat
    ++ 'T' :: pad2 (ms / 3600000).toNat ++ ':' :: pad2 (ms / 60000 % 60).toNat
    ++ ':' :: pad2 (ms / 1000 % 60).toNat ++ '.' :: pad3 (ms % 1000).toNat ++ ['Z'])

/-- Model of `String.prototype.slice(0, n)` on the ASCII strings of the model. -/
def slice0 (s : String) (n : Nat) : String := String.mk (s.data.take n)

/-- Model of `new Date(now.getFullYear(), now.getMonth(), now.getDate())`: the
local fields of `now`, rebuilt as a local date at 00:00; a year of 0..99 is
read as 1900..1999 by the `Date` constructor. -/
def localDateOf (tz : Int) (now : Int) : Int :=
  let c := civilFromDays ((now + tz * msPerMinute) / msPerDay)
  let y := if 0 ≤ c.1 ∧ c.1 ≤ 99 then 1900 + c.1 else c.1
  daysFromCivil y c.2.1 c.2.2 * msPerDay - tz * msPerMinute

/-- Year as the `pt-PT` formatters print it (`year: 'numeric'`): the plain
decimal number, years before 1 counted backwards from 1. -/
def localeYear (y : Int) : List Char :=
  if 1 ≤ y then (Nat.repr y.toNat).data else (Nat.repr (1 - y).toNat).data

/-- Model of `toLocaleDateString('pt-PT', day: '2-digit', month: '2-digit',
year: 'numeric')`: `dd/mm/yyyy` in local time, `Invalid Date` on `NaN`. -/
def toLocaleDateString (tz : Int) : Option Int → String
  | none => "Invalid Date"
  | some t =>
    let c := civilFromDays ((t + tz * msPerMinute) / msPerDay)
    String.mk (pad2 c.2.2.toNat ++ '/' :: pad2 c.2.1.toNat ++ '/' :: localeYear c.1)

/-- Model of `toLocaleString('pt-PT')`: `dd/mm/yyyy, hh:mm:ss` in local time,
`Invalid Date` on `NaN`. -/
def toLocaleString (tz : Int) : Option Int → String
  | none => "Invalid Date"
  | some t =>
    let l := t + tz * msPerMinute
    let c := civilFromDays (l / msPerDay)
    let ms := l % msPerDay
    String.mk (pad2 c.2.2.toNat ++ '/' :: pad2 c.2.1.toNat ++ '/' :: localeYear c.1
      ++ ',' :: ' ' :: pad2 (ms / 3600000).toNat ++ ':' :: pad2 (ms / 60000 % 60).toNat
      ++ ':' :: pad2 (ms / 1000 % 60).toNat)

/-- Subtraction of two dates (`a - b` on `Date` objects): `NaN` if either is
invalid. -/
def dateSub (a b : Option Int) : Option Int := do
  let x ← a
  let y ← b
  pure (x - y)

/-- Comparison `a >= b` of two dates: false when either side is `NaN`. -/
def dateGe (a b : Option Int) : Bool :=
  match a, b with
  | some x, some y => decide (y ≤ x)
  | _, _ => false

/-- Model of `a || b` on a possibly absent string: an absent or empty `a` is
falsy. -/
def orString (a : Option String) (b : String) : String :=
  match a with
  | some s => if s = "" then b else s
  | none => b

/-- Model of `a || b` on a possibly absent integer: an absent or zero `a` is
falsy. -/
def orInt (a : Option Int) (b : Int) : Int :=
  match a with
  | some n => if n = 0 then b else n
  | none => b

/-- A comparator result that is greater than zero; `NaN` is not. -/
def isPositive : Option Int → Bool
  | some v => decide (0 < v)
  | none => false

/-- Model of `Array.prototype.sort(cmp)`: a stable sort that moves `a` behind
`b` only when `cmp(a, b) > 0`. The language fixes the result for a consistent
comparator; the order it leaves to the engine when `cmp` yields `NaN` is here
the one of a stable insertion sort. -/
def jsSort {α : Type} (cmp : α → α → Option Int) (l : List α) : List α :=
  l.insertionSort (fun a b => isPositive (cmp a b) = false)

/-- Model of `s.split(sep)` for a one-character separator. -/
def splitChars (sep : Char) : List Char → List (List Char)
  | [] => [[]]
  | c :: cs =>
    if c = sep then [] :: splitChars sep cs
    else
      match splitChars sep cs with
      | [] => [[c]]
      | p :: ps => (c :: p) :: ps

/-- Model of `parts.join(sep)` for a one-character separator. -/
def joinChars (sep : Char) : List (List Char) → List Char
  | [] => []
  | [p] => p
  | p :: q :: ps => p ++ sep :: joinChars sep (q :: ps)

/-! ## Data model of `App.jsx` -/

/-- Identifier of an entry: `Date.now()` on the local path, the document id on
the remote path. -/
inductive EntryId where
  | num (n : Int)
  | str (s : String)
  deriving DecidableEq, Repr

/-- A journal entry as it lives in `entries`. The text and numeric fields may
be absent on an entry that came from the remote store or from the mirror. -/
structure Entry where
  id : EntryId
  dataHora : String
  situacao : Option String
  pensamento : Option String
  emocao : Option String
  sintomasFisicos : Option String
  estrategia : Option String
  eficacia : Option Int
  intensidade : Option Int
  deriving DecidableEq, Repr

/-- The form state `formData` (the draft of an entry). -/
structure FormData where
  dataHora : String
  situacao : String
  pensamento : String
  emocao : String
  sintomasFisicos : String
  estrategia : String
  eficacia : Int
  intensidade : Int
  deriving DecidableEq, Repr

/-- The initial and the reset value of `formData`. -/
def initialFormData : FormData :=
  ⟨"", "", "", "", "", "", 50, 50⟩

/-- A document of the remote collection: its id and its data, the fields
`handleSubmit` writes with `addDoc` (the data has no `id` field of its own). -/
structure Doc where
  id : String
  dataHora : String
  situacao : Option String
  pensamento : Option String
  emocao : Option String
  sintomasFisicos : Option String
  estrategia : Option String
  eficacia : Option Int
  intensidade : Option Int
  deriving DecidableEq, Repr

/-- The values of `filterPeriod` offered by the period selector. -/
inductive Period where
  | all
  | day
  | week
  | month
  deriving DecidableEq, Repr

/-- How the remote store answers a write: `isFirebaseConfigured && db` is false,
or the awaited call throws, or it resolves. -/
inductive Remote where
  | unavailable
  | fails
  | succeeds
  deriving DecidableEq, Repr

/-- The state the handlers read and write: `entries`, the `entries` slot of
`localStorage` (absent until first written) and `formData`. -/
structure AppState where
  entries : List Entry
  mirror : Option (List Entry)
  formData : FormData
  deriving DecidableEq, Repr

/-! ## The Entry Store -/

/-- The comparator `(a, b) => new Date(b.dataHora) - new Date(a.dataHora)`. -/
def compareDesc (tz : Int) (a b : Entry) : Option Int :=
  dateSub (newDate tz b.dataHora) (newDate tz a.dataHora)

/-- The entry `id: doc.id, ...doc.data()` built for a snapshot document. -/
def docEntry (d : Doc) : Entry :=
  ⟨.str d.id, d.dataHora, d.situacao, d.pensamento, d.emocao, d.sintomasFisicos,
    d.estrategia, d.eficacia, d.intensidade⟩

/-- The `onSnapshot` success handler (the ordered and the unordered
subscription install the same one): collect, sort, `setEntries`, write the
mirror. -/
def onSnapshot (tz : Int) (docs : List Doc) (s : AppState) : AppState :=
  let entriesData := jsSort (compareDesc tz) (docs.map docEntry)
  { s with entries := entriesData, mirror := some entriesData }

/-- The `newEntry` of `handleSubmit`: the draft with
`dataHora: formData.dataHora || new Date().toISOString().slice(0, 16)`;
`tNew` is the clock read by `new Date()`. -/
def newEntry (tNew : Int) (f : FormData) : FormData :=
  { f with dataHora := if f.dataHora = "" then slice0 (toISOString tNew) 16 else f.dataHora }

/-- The `localEntry` of `handleSubmit`: `id: Date.now(), ...newEntry`; `tId` is
the clock read by `Date.now()`. -/
def localEntry (tId : Int) (f : FormData) : Entry :=
  ⟨.num tId, f.dataHora, some f.situacao, some f.pensamento, some f.emocao,
    some f.sintomasFisicos, some f.estrategia, some f.eficacia, some f.intensidade⟩

/-- Model of `handleSubmit`. On the remote path that resolves, the list is left
to the live subscription; otherwise the local entry is prepended and the mirror
written. The form is reset in every case. -/
def handleSubmit (remote : Remote) (tNew tId : Int) (s : AppState) : AppState :=
  match remote with
  | .succeeds => { s with formData := initialFormData }
  | _ =>
    let updatedEntries := localEntry tId (newEntry tNew s.formData) :: s.entries
    { entries := updatedEntries, mirror := some updatedEntries, formData := initialFormData }

/-- Model of `deleteEntry`. On the remote path that resolves, the list is left
to the live subscription; otherwise the entries with `entry.id !== id` are kept
and the mirror written. -/
def deleteEntry (remote : Remote) (id : EntryId) (s : AppState) : AppState :=
  match remote with
  | .succeeds => s
  | _ =>
    let updatedEntries := s.entries.filter (fun entry => decide (entry.id ≠ id))
    { s with entries := updatedEntries, mirror := some updatedEntries }

/-! ## Filtering, ordering, export and chart data -/

/-- Model of `filterEntriesByPeriod`; `now` is the clock read by `new Date()`. -/
def filterEntriesByPeriod (tz now : Int) (filterPeriod : Period)
    (entriesToFilter : List Entry) : List Entry :=
  let entryDate := fun (entry : Entry) => newDate tz entry.dataHora
  match filterPeriod with
  | .day =>
    let today := localDateOf tz now
    entriesToFilter.filter (fun entry => dateGe (entryDate entry) (some today))
  | .week =>
    let weekAgo := now - 7 * 24 * 60 * 60 * 1000
    entriesToFilter.filter (fun entry => dateGe (entryDate entry) (some weekAgo))
  | .month =>
    let monthAgo := now - 30 * 24 * 60 * 60 * 1000
    entriesToFilter.filter (fun entry => dateGe (entryDate entry) (some monthAgo))
  | .all => entriesToFilter

/-- Model of `sortedEntries`: a sorted copy of `filteredEntries`. -/
def sortedEntries (tz : Int) (filteredEntries : List Entry) : List Entry :=
  jsSort (compareDesc tz) filteredEntries

/-- A row of the exported sheet, one field per column. `eficacia` is copied
from the entry as it is, so it stays absent when the entry has none. -/
structure Row where
  dataHora : String
  situacao : String
  pensamento : String
  emocao : String
  sintomasFisicos : String
  estrategia : String
  eficacia : Option Int
  intensidade : Int
  deriving DecidableEq, Repr

/-- The `worksheetData` of `exportToExcel`. -/
def exportRows (tz : Int) (filteredEntries : List Entry) : List Row :=
  filteredEntries.map (fun entry =>
    ⟨toLocaleString tz (newDate tz entry.dataHora),
     orString entry.situacao "",
     orString entry.pensamento "",
     orString entry.emocao "",
     orString entry.sintomasFisicos "",
     orString entry.estrategia "",
     entry.eficacia,
     orInt entry.intensidade 0⟩)

/-- Property read `obj[key]` on the object `dailyMap`, kept as the list of its
own properties in insertion order. -/
def objGet (obj : List (String × Nat)) (key : String) : Option Nat :=
  match obj with
  | [] => none
  | (k, v) :: rest => if k = key then some v else objGet rest key

/-- Property write `obj[key] = v`: an existing property keeps its place, a new
one goes last. -/
def objSet (obj : List (String × Nat)) (key : String) (v : Nat) : List (String × Nat) :=
  match obj with
  | [] => [(key, v)]
  | (k, w) :: rest => if k = key then (k, v) :: rest else (k, w) :: objSet rest key v

/-- One round of the `forEach` of `chartDataEntriesPerDay`:
`if (!dailyMap[date]) dailyMap[date] = 0` and then `dailyMap[date]++`. -/
def countEntry (tz : Int) (dailyMap : List (String × Nat)) (entry : Entry) :
    List (String × Nat) :=
  let date := toLocaleDateString tz (newDate tz entry.dataHora)
  let dailyMap1 := if (objGet dailyMap date).getD 0 = 0 then objSet dailyMap date 0 else dailyMap
  objSet dailyMap1 date ((objGet dailyMap1 date).getD 0 + 1)

/-- The date `new Date(a.split('/').reverse().join('-'))` that orders the chart. -/
def chartDate (tz : Int) (a : String) : Option Int :=
  newDate tz (String.mk (joinChars '-' (splitChars '/' a.data).reverse))

/-- A point of the chart: `date` and `quantidade`. -/
structure ChartPoint where
  date : String
  quantidade : Nat
  deriving DecidableEq, Repr

/-- Model of `chartDataEntriesPerDay`. The keys come from `dailyMap` itself, so
`dailyMap[date]` is always present. -/
def chartDataEntriesPerDay (tz : Int) (filteredEntries : List Entry) : List ChartPoint :=
  let dailyMap := filteredEntries.foldl (countEntry tz) []
  (jsSort (fun a b => dateSub (chartDate tz a) (chartDate tz b)) (dailyMap.map Prod.fst)).map
    (fun date => ⟨date, (objGet dailyMap date).getD 0⟩)

/-! ## Entries of the scenarios -/

/-- An entry dated `2024-01-01T10:00`. -/
def entryJan01 : Entry :=
  ⟨.num 1, "2024-01-01T10:00", some "", some "", some "", some "", some "", some 50, some 50⟩

/-- An entry dated `2024-01-15T10:00`. -/
def entryJan15 : Entry :=
  ⟨.num 2, "2024-01-15T10:00", some "", some "", some "", some "", some "", some 50, some 50⟩

/-- A second entry dated `2024-01-15T10:00`. -/
def entryJan15b : Entry :=
  ⟨.num 3, "2024-01-15T10:00", some "", some "", some "", some "", some "", some 50, some 50⟩

/-- An entry of the remote store without `sintomasFisicos` and `intensidade`. -/
def entrySparse : Entry :=
  ⟨.str "doc1", "2024-01-15T10:00", some "s", some "p", some "e", none, some "x", some 40, none⟩

/-- The instant of an entry as a number, for a valid `dataHora`. -/
def instant (tz : Int) (e : Entry) : Int := (newDate tz e.dataHora).getD 0

/-- An entry dated `2030-01-01T00:00`. -/
def entry2030 : Entry :=
  ⟨.num 4, "2030-01-01T00:00", some "", some "", some "", some "", some "", some 50, some 50⟩

/-- Comparison `a < b` of two dates: false when either side is `NaN`. -/
def dateLt (a b : Option Int) : Bool :=
  match a, b with
  | some x, some y => decide (x < y)
  | _, _ => false

/-- An entry whose `dataHora` is not a date. -/
def entryUndated : Entry :=
  ⟨.str "doc2", "abc", some "", some "", some "", some "", some "", some 50, some 50⟩

/-! ## The form -/

/-- `WhiteSpace` and `LineTerminator` code points, which `parseInt` skips at
the start of its input. -/
def isWhiteSpace (c : Char) : Bool :=
  c.toNat = 0x09 || c.toNat = 0x0A || c.toNat = 0x0B || c.toNat = 0x0C || c.toNat = 0x0D ||
  c.toNat = 0x20 || c.toNat = 0xA0 || c.toNat = 0x1680 ||
  (0x2000 ≤ c.toNat && c.toNat ≤ 0x200A) || c.toNat = 0x2028 || c.toNat = 0x2029 ||
  c.toNat = 0x202F || c.toNat = 0x205F || c.toNat = 0x3000 || c.toNat = 0xFEFF

/-- Value of a hexadecimal digit character. -/
def hexDigitVal (c : Char) : Option Nat :=
  if 48 ≤ c.toNat ∧ c.toNat ≤ 57 then some (c.toNat - 48)
  else if 97 ≤ c.toNat ∧ c.toNat ≤ 102 then some (c.toNat - 87)
  else if 65 ≤ c.toNat ∧ c.toNat ≤ 70 then some (c.toNat - 55)
  else none

/-- The digits of the longest prefix of the input made of digits only. -/
def digitsPrefix (digit : Char → Option Nat) : List Char → List Nat
  | [] => []
  | c :: cs =>
    match digit c with
    | some d => d :: digitsPrefix digit cs
    | none => []

/-- The number a list of digits writes in a radix. -/
def digitsValue (radix : Nat) (ds : List Nat) : Nat :=
  ds.foldl (fun acc d => acc * radix + d) 0

/-- Model of `parseInt(value)` with no radix: leading white space is skipped, a
sign is read, `0x` or `0X` selects radix 16, and the longest prefix of digits
is the value; `none` is `NaN` (no digit). The model returns the integer the
digits write; the engine returns the nearest double, which is the same number
up to 2^53. -/
def parseInt (value : String) : Option Int :=
  let s0 := value.data.dropWhile isWhiteSpace
  let negative := s0.head? = some '-'
  let s1 := if s0.head? = some '-' ∨ s0.head? = some '+' then s0.tail else s0
  let hex := s1.take 2 = ['0', 'x'] ∨ s1.take 2 = ['0', 'X']
  let s2 := if hex then s1.drop 2 else s1
  let z := digitsPrefix (if hex then hexDigitVal else digitVal) s2
  if z = [] then none
  else if negative then some (-(digitsValue (if hex then 16 else 10) z : Int))
  else some (digitsValue (if hex then 16 else 10) z : Int)

/-- Model of `handleChange` for the eight inputs of the form: the property
`name` of `formData` becomes `parseInt(value) || 0` for the two range inputs
and `value` for the others. A name that is none of the eight would add a
property the model does not carry, and leaves the eight as they are. -/
def handleChange (name value : String) (s : AppState) : AppState :=
  let prev := s.formData
  { s with formData :=
      if name = "eficacia" then { prev with eficacia := orInt (parseInt value) 0 }
      else if name = "intensidade" then { prev with intensidade := orInt (parseInt value) 0 }
      else if name = "dataHora" then { prev with dataHora := value }
      else if name = "situacao" then { prev with situacao := value }
      else if name = "pensamento" then { prev with pensamento := value }
      else if name = "emocao" then { prev with emocao := value }
      else if name = "sintomasFisicos" then { prev with sintomasFisicos := value }
      else if name = "estrategia" then { prev with estrategia := value }
      else prev }

/-- A sequence of form changes, each a pair of `name` and `value`, applied in
order. -/
def handleChanges (changes : List (String × String)) (s : AppState) : AppState :=
  changes.foldl (fun st c => handleChange c.1 c.2 st) s

/-! ## Calendar lemmas -/

/-- The year-of-era formula of `civilFromDays` yields a year 0..399 of the era
and a day 0..365 of that year. -/
theorem yoe_bounds (doe : Int) (h0 : 0 ≤ doe) (h1 : doe ≤ 146096) :
    0 ≤ (doe - doe / 1460 + doe / 36524 - doe / 146096) / 365 ∧
    (doe - doe / 1460 + doe / 36524 - doe / 146096) / 365 ≤ 399 ∧
    0 ≤ doe - (365 * ((doe - doe / 1460 + doe / 36524 - doe / 146096) / 365)
        + (doe - doe / 1460 + doe / 36524 - doe / 146096) / 365 / 4
        - (doe - doe / 1460 + doe / 36524 - doe / 146096) / 365 / 100) ∧
    doe - (365 * ((doe - doe / 1460 + doe / 36524 - doe / 146096) / 365)
        + (doe - doe / 1460 + doe / 36524 - doe / 146096) / 365 / 4
        - (doe - doe / 1460 + doe / 36524 - doe / 146096) / 365 / 100) ≤ 365 := by
  by_cases hlast : doe = 146096
  · subst hlast; decide
  have hc : doe / 146096 = 0 := by omega
  -- century `b`, four-year block `k` of the century, day `t` of the block
  have hb : 0 ≤ doe / 36524 ∧ doe / 36524 ≤ 3 := by omega
  generalize hbdef : doe / 36524 = b at hb
  have hr : 0 ≤ doe - 36524 * b ∧ doe - 36524 * b ≤ 36523 := by omega
  have hk : 0 ≤ (doe - 36524 * b) / 1461 ∧ (doe - 36524 * b) / 1461 ≤ 24 := by omega
  generalize hkdef : (doe - 36524 * b) / 1461 = k at hk
  have ht : 0 ≤ doe - 36524 * b - 1461 * k ∧ doe - 36524 * b - 1461 * k ≤ 1460 := by omega
  generalize htdef : doe - 36524 * b - 1461 * k = t at ht
  have hdoe : doe = 36524 * b + 1461 * k + t := by omega
  have ha : doe / 1460 = 25 * b + k + (24 * b + k + t) / 1460 := by omega
  have hs : 0 ≤ (24 * b + k + t) / 1460 ∧ (24 * b + k + t) / 1460 ≤ 1 := by omega
  generalize hsdef : (24 * b + k + t) / 1460 = s at ha hs
  have hy : (doe - doe / 1460 + b - doe / 146096) / 365 = 100 * b + 4 * k + (t - s) / 365 := by
    rw [ha, hc, hdoe]; omega
  have hm : 0 ≤ (t - s) / 365 ∧ (t - s) / 365 ≤ 3 := by omega
  generalize hmdef : (t - s) / 365 = m at hy hm
  rw [hy]
  have hq : (100 * b + 4 * k + m) / 4 = 25 * b + k := by omega
  have hcent : (100 * b + 4 * k + m) / 100 = b := by omega
  rw [hq, hcent, hdoe]
  omega

/-- The intermediate quantities of `civilFromDays`, with their ranges. -/
theorem civilFromDays_aux (z : Int) :
    ∃ era yoe doy mp : Int,
      0 ≤ yoe ∧ yoe ≤ 399 ∧ 0 ≤ doy ∧ doy ≤ 365 ∧ 0 ≤ mp ∧ mp ≤ 11 ∧
      mp = (5 * doy + 2) / 153 ∧
      z = era * 146097 + (yoe * 365 + yoe / 4 - yoe / 100 + doy) - 719468 ∧
      civilFromDays z =
        (if (if mp < 10 then mp + 3 else mp - 9) ≤ 2 then yoe + era * 400 + 1 else yoe + era * 400,
         if mp < 10 then mp + 3 else mp - 9,
         doy - (153 * mp + 2) / 5 + 1) := by
  have hdoe : 0 ≤ z + 719468 - (z + 719468) / 146097 * 146097 ∧
      z + 719468 - (z + 719468) / 146097 * 146097 ≤ 146096 := by omega
  obtain ⟨h1, h2, h3, h4⟩ := yoe_bounds _ hdoe.1 hdoe.2
  refine ⟨(z + 719468) / 146097, _, _, _, h1, h2, h3, h4, ?_, ?_, rfl, ?_, rfl⟩
  · omega
  · omega
  · omega

/-- Rebuilding the day number from the civil date gives the day number back. -/
theorem daysFromCivil_civilFromDays (z : Int) :
    daysFromCivil (civilFromDays z).1 (civilFromDays z).2.1 (civilFromDays z).2.2 = z := by
  obtain ⟨era, yoe, doy, mp, h1, h2, h3, h4, h5, h6, h7, h8, h9⟩ := civilFromDays_aux z
  rw [h9]
  clear h9
  have e1 : (yoe + era * 400) / 400 = era := by omega
  have e2 : yoe + era * 400 - era * 400 = yoe := by omega
  by_cases hmp : mp < 10
  · have a1 : ¬ (mp + 3 ≤ 2) := by omega
    have a2 : mp + 3 > 2 := by omega
    have a3 : mp + 3 - 3 = mp := by omega
    simp only [daysFromCivil, hmp, a1, a2, a3, if_true, if_false, e1, e2]
    omega
  · have a1 : mp - 9 ≤ 2 := by omega
    have a2 : ¬ (mp - 9 > 2) := by omega
    have a3 : mp - 9 + 9 = mp := by omega
    have a4 : yoe + era * 400 + 1 - 1 = yoe + era * 400 := by omega
    simp only [daysFromCivil, hmp, a1, a2, a3, a4, if_true, if_false, e1, e2]
    omega

/-- The month of a civil date is 1..12. -/
theorem civilFromDays_month (z : Int) :
    1 ≤ (civilFromDays z).2.1 ∧ (civilFromDays z).2.1 ≤ 12 := by
  obtain ⟨era, yoe, doy, mp, h1, h2, h3, h4, h5, h6, h7, h8, h9⟩ := civilFromDays_aux z
  rw [h9]
  simp only
  split_ifs <;> omega

/-- The day of a civil date is 1..31. -/
theorem civilFromDays_day (z : Int) :
    1 ≤ (civilFromDays z).2.2 ∧ (civilFromDays z).2.2 ≤ 31 := by
  obtain ⟨era, yoe, doy, mp, h1, h2, h3, h4, h5, h6, h7, h8, h9⟩ := civilFromDays_aux z
  rw [h9]
  simp only
  omega

/-- From the epoch on, the year is at least 1970. -/
theorem civilFromDays_year_ge (z : Int) (hz : 0 ≤ z) : 1970 ≤ (civilFromDays z).1 := by
  obtain ⟨era, yoe, doy, mp, h1, h2, h3, h4, h5, h6, h7, h8, h9⟩ := civilFromDays_aux z
  rw [h9]
  simp only
  split_ifs <;> omega

/-- Before day 2932897 (10000-01-01) the year is at most 9999. -/
theorem civilFromDays_year_le (z : Int) (hz : z < 2932897) : (civilFromDays z).1 ≤ 9999 := by
  obtain ⟨era, yoe, doy, mp, h1, h2, h3, h4, h5, h6, h7, h8, h9⟩ := civilFromDays_aux z
  rw [h9]
  simp only
  split_ifs <;> omega

/-! ## Lemmas on the decimal fields -/

/-- A digit character reads back as its digit. -/
theorem digitVal_digitChar (n : Nat) (h : n < 10) : digitVal (Nat.digitChar n) = some n := by
  interval_cases n <;> rfl

/-- A two-digit field reads back as its number. -/
theorem num2_pad (n : Nat) (h : n < 100) :
    num2 (Nat.digitChar (n / 10 % 10)) (Nat.digitChar (n % 10)) = some n := by
  have h1 : n / 10 % 10 < 10 := Nat.mod_lt _ (by decide)
  have h2 : n % 10 < 10 := Nat.mod_lt _ (by decide)
  simp only [num2, digitVal_digitChar _ h1, digitVal_digitChar _ h2, Option.bind_eq_bind,
    Option.some_bind, Option.pure_def, Option.some.injEq]
  omega

/-- A four-digit field reads back as its number. -/
theorem num4_pad (n : Nat) (h : n < 10000) :
    num4 (Nat.digitChar (n / 1000 % 10)) (Nat.digitChar (n / 100 % 10))
      (Nat.digitChar (n / 10 % 10)) (Nat.digitChar (n % 10)) = some n := by
  have h0 : n / 1000 % 10 < 10 := Nat.mod_lt _ (by decide)
  have h1 : n / 100 % 10 < 10 := Nat.mod_lt _ (by decide)
  have h2 : n / 10 % 10 < 10 := Nat.mod_lt _ (by decide)
  have h3 : n % 10 < 10 := Nat.mod_lt _ (by decide)
  simp only [num4, digitVal_digitChar _ h0, digitVal_digitChar _ h1, digitVal_digitChar _ h2,
    digitVal_digitChar _ h3, Option.bind_eq_bind,
    Option.some_bind, Option.pure_def, Option.some.injEq]
  omega

/-- The wall-clock value read back from the first sixteen characters of an ISO string. -/
theorem parseDateTime_toISOString (t : Int) (h0 : 0 ≤ t) (h1 : t < 253402300800000) :
    parseDateTime (slice0 (toISOString t) 16).data = some (t - t % msPerMinute) := by
  have hz0 : 0 ≤ t / msPerDay := by unfold msPerDay; omega
  have hz1 : t / msPerDay < 2932897 := by unfold msPerDay; omega
  have hy0 := civilFromDays_year_ge _ hz0
  have hy1 := civilFromDays_year_le _ hz1
  have hm := civilFromDays_month (t / msPerDay)
  have hd := civilFromDays_day (t / msPerDay)
  have hrt := daysFromCivil_civilFromDays (t / msPerDay)
  simp only [toISOString, slice0]
  generalize civilFromDays (t / msPerDay) = c at *
  obtain ⟨y, m, d⟩ := c
  simp only at hy0 hy1 hm hd hrt ⊢
  have hms : 0 ≤ t % msPerDay ∧ t % msPerDay < 86400000 := by unfold msPerDay; omega
  generalize hmsdef : t % msPerDay = ms at hms
  have hiso : isoYear y = pad4 y.toNat := by
    unfold isoYear
    rw [if_pos ⟨by omega, hy1⟩]
  simp only [hiso, pad4, pad2, List.cons_append, List.nil_append, List.take_succ_cons,
    List.take_zero, parseDateTime, and_self, if_true]
  rw [num4_pad _ (by omega), num2_pad _ (by omega), num2_pad _ (by omega),
    num2_pad _ (by omega), num2_pad _ (by omega)]
  simp only [Option.bind_eq_bind, Option.some_bind, makeDate]
  rw [if_pos (by omega)]
  have c1 : ((y.toNat : Nat) : Int) = y := Int.toNat_of_nonneg (by omega)
  have c2 : ((m.toNat : Nat) : Int) = m := Int.toNat_of_nonneg (by omega)
  have c3 : ((d.toNat : Nat) : Int) = d := Int.toNat_of_nonneg (by omega)
  have c4 : (((ms / 3600000).toNat : Nat) : Int) = ms / 3600000 := Int.toNat_of_nonneg (by omega)
  have c5 : (((ms / 60000 % 60).toNat : Nat) : Int) = ms / 60000 % 60 :=
    Int.toNat_of_nonneg (by omega)
  rw [c1, c2, c3, c4, c5, hrt]
  simp only [msPerDay, msPerMinute, Option.some.injEq] at hmsdef ⊢
  omega

/-- Under a clock at or after 1970-01-01 local time, the date rebuilt from the
local fields of `now` is the start of the local day of `now`. -/
theorem localDateOf_eq (tz now : Int) (hnow : 0 ≤ now + tz * msPerMinute) :
    localDateOf tz now = (now + tz * msPerMinute) / msPerDay * msPerDay - tz * msPerMinute := by
  have hz0 : 0 ≤ (now + tz * msPerMinute) / msPerDay := by
    simp only [msPerDay, msPerMinute] at hnow ⊢; omega
  have hy0 := civilFromDays_year_ge _ hz0
  have hrt := daysFromCivil_civilFromDays ((now + tz * msPerMinute) / msPerDay)
  unfold localDateOf
  simp only
  rw [if_neg (by omega), hrt]

/-- The time value of a date-time string is its wall-clock reading moved by
the zone offset. -/
theorem newDate_of_parseDateTime (tz : Int) (s : String) (t : Int)
    (h : parseDateTime s.data = some t) : newDate tz s = some (t - tz * msPerMinute) := by
  unfold newDate
  rw [h]

/-- Inserting into a list under two relations that agree on it. -/
theorem orderedInsert_congr {α : Type} (r r' : α → α → Prop) [DecidableRel r] [DecidableRel r']
    (a : α) (l : List α) (h : ∀ b ∈ l, r a b ↔ r' a b) :
    l.orderedInsert r a = l.orderedInsert r' a := by
  induction l with
  | nil => rfl
  | cons b l ih =>
    have hb : r a b ↔ r' a b := h b (List.mem_cons_self _ _)
    have hl : ∀ c ∈ l, r a c ↔ r' a c := fun c hc => h c (List.mem_cons_of_mem _ hc)
    by_cases hr : r a b
    · rw [List.orderedInsert, List.orderedInsert, if_pos hr, if_pos (hb.mp hr)]
    · rw [List.orderedInsert, List.orderedInsert, if_neg hr, if_neg (fun h' => hr (hb.mpr h')),
        ih hl]

/-- Sorting a list under two relations that agree on it. -/
theorem insertionSort_congr {α : Type} (r r' : α → α → Prop) [DecidableRel r] [DecidableRel r']
    (l : List α) (h : ∀ a ∈ l, ∀ b ∈ l, r a b ↔ r' a b) :
    l.insertionSort r = l.insertionSort r' := by
  induction l with
  | nil => rfl
  | cons a l ih =>
    have hl : ∀ x ∈ l, ∀ y ∈ l, r x y ↔ r' x y :=
      fun x hx y hy => h x (List.mem_cons_of_mem _ hx) y (List.mem_cons_of_mem _ hy)
    rw [List.insertionSort, List.insertionSort, ih hl]
    apply orderedInsert_congr
    intro b hb
    exact h a (List.mem_cons_self _ _) b
      (List.mem_cons_of_mem _ ((List.mem_insertionSort r').mp hb))

/-- On two valid dates the comparator of the descending sort is not positive
exactly when the first is not earlier than the second. -/
theorem compareDesc_not_positive_iff (tz : Int) (a b : Entry)
    (ha : (newDate tz a.dataHora).isSome) (hb : (newDate tz b.dataHora).isSome) :
    isPositive (compareDesc tz a b) = false ↔ instant tz b ≤ instant tz a := by
  obtain ⟨ta, hta⟩ := Option.isSome_iff_exists.mp ha
  obtain ⟨tb, htb⟩ := Option.isSome_iff_exists.mp hb
  simp only [compareDesc, instant, hta, htb, dateSub, Option.bind_eq_bind, Option.some_bind,
    Option.pure_def, isPositive, Option.getD_some, decide_eq_false_iff_not]
  omega

/-- On entries with valid dates the sort of the handlers is the insertion sort
by descending instant. -/
theorem jsSort_compareDesc_eq (tz : Int) (l : List Entry)
    (hvalid : ∀ e ∈ l, (newDate tz e.dataHora).isSome) :
    jsSort (compareDesc tz) l
      = l.insertionSort (fun a b => instant tz b ≤ instant tz a) := by
  unfold jsSort
  apply insertionSort_congr
  intro a ha b hb
  exact compareDesc_not_positive_iff tz a b (hvalid a ha) (hvalid b hb)

/-- The descending order on instants is total. -/
theorem instant_total (tz : Int) :
    IsTotal Entry (fun a b => instant tz b ≤ instant tz a) :=
  ⟨fun a b => le_total (instant tz b) (instant tz a)⟩

/-- The descending order on instants is transitive. -/
theorem instant_trans (tz : Int) :
    IsTrans Entry (fun a b => instant tz b ≤ instant tz a) :=
  ⟨fun _ _ _ hab hbc => le_trans hbc hab⟩

/-- The sorted list of valid-dated entries is in descending order of instant. -/
theorem jsSort_compareDesc_sorted (tz : Int) (l : List Entry)
    (hvalid : ∀ e ∈ l, (newDate tz e.dataHora).isSome) :
    (jsSort (compareDesc tz) l).Pairwise (fun a b => instant tz b ≤ instant tz a) := by
  rw [jsSort_compareDesc_eq tz l hvalid]
  haveI := instant_total tz
  haveI := instant_trans tz
  exact List.sorted_insertionSort (fun a b => instant tz b ≤ instant tz a) l

/-- The sort permutes its input. -/
theorem jsSort_perm {α : Type} (cmp : α → α → Option Int) (l : List α) :
    (jsSort cmp l).Perm l :=
  List.perm_insertionSort _ l

/-- Two descending lists of integers with the same members are equal. -/
theorem eq_of_perm_of_descending (k1 k2 : List Int) (hp : k1.Perm k2)
    (h1 : k1.Pairwise (fun x y => y ≤ x)) (h2 : k2.Pairwise (fun x y => y ≤ x)) : k1 = k2 :=
  List.eq_of_perm_of_sorted (r := fun x y : Int => x ≥ y) hp h1 h2

/-- A valid date is the instant of its entry. -/
theorem newDate_eq_instant (tz : Int) (e : Entry) (h : (newDate tz e.dataHora).isSome) :
    newDate tz e.dataHora = some (instant tz e) := by
  obtain ⟨t, ht⟩ := Option.isSome_iff_exists.mp h
  simp [instant, ht]

/-- Sorting two permutations of a list of valid-dated entries gives the same
sequence of instants. -/
theorem jsSort_compareDesc_instants (tz : Int) (l1 l2 : List Entry) (hperm : l1.Perm l2)
    (hvalid : ∀ e ∈ l1, (newDate tz e.dataHora).isSome) :
    (jsSort (compareDesc tz) l1).map (instant tz) = (jsSort (compareDesc tz) l2).map (instant tz) := by
  have hvalid2 : ∀ e ∈ l2, (newDate tz e.dataHora).isSome :=
    fun e he => hvalid e (hperm.mem_iff.mpr he)
  apply eq_of_perm_of_descending
  · exact (((jsSort_perm _ l1).trans hperm).trans (jsSort_perm _ l2).symm).map _
  · exact List.pairwise_map.mpr (jsSort_compareDesc_sorted tz l1 hvalid)
  · exact List.pairwise_map.mpr (jsSort_compareDesc_sorted tz l2 hvalid2)

/-- Sorting two permutations of a list of valid-dated entries with pairwise
distinct instants gives the same list. -/
theorem jsSort_compareDesc_unique (tz : Int) (l1 l2 : List Entry) (hperm : l1.Perm l2)
    (hvalid : ∀ e ∈ l1, (newDate tz e.dataHora).isSome)
    (hnodup : (l1.map (fun e => newDate tz e.dataHora)).Nodup) :
    jsSort (compareDesc tz) l1 = jsSort (compareDesc tz) l2 := by
  have hvalid2 : ∀ e ∈ l2, (newDate tz e.dataHora).isSome :=
    fun e he => hvalid e (hperm.mem_iff.mpr he)
  have hne1 : l1.Pairwise (fun a b => instant tz a ≠ instant tz b) := by
    have := List.pairwise_map.mp hnodup
    refine this.imp_of_mem ?_
    intro a b ha hb hab h
    apply hab
    rw [newDate_eq_instant tz a (hvalid a ha), newDate_eq_instant tz b (hvalid b hb), h]
  have hsym : Symmetric (fun a b : Entry => instant tz a ≠ instant tz b) :=
    fun _ _ h => Ne.symm h
  have strict : ∀ l : List Entry, l.Perm l1 →
      l.Pairwise (fun a b => instant tz b ≤ instant tz a) →
      l.Pairwise (fun a b => instant tz b < instant tz a) := by
    intro l hl hs
    have hne : l.Pairwise (fun a b => instant tz a ≠ instant tz b) :=
      (hl.pairwise_iff (fun {x y} h => hsym h)).mpr hne1
    exact (hs.and hne).imp (fun h => lt_of_le_of_ne h.1 (Ne.symm h.2))
  haveI : IsAntisymm Entry (fun a b => instant tz b < instant tz a) :=
    ⟨fun a b h1 h2 => absurd h1 (not_lt.mpr (le_of_lt h2))⟩
  exact List.eq_of_perm_of_sorted
    (((jsSort_perm _ l1).trans hperm).trans (jsSort_perm _ l2).symm)
    (strict _ (jsSort_perm _ l1) (jsSort_compareDesc_sorted tz l1 hvalid))
    (strict _ ((jsSort_perm _ l2).trans hperm.symm) (jsSort_compareDesc_sorted tz l2 hvalid2))

/-- Entries with the same date keep their input order in the sort. -/
theorem jsSort_compareDesc_stable (tz : Int) (l : List Entry) (a b : Entry)
    (hab : newDate tz a.dataHora = newDate tz b.dataHora) (h : [a, b].Sublist l) :
    [a, b].Sublist (jsSort (compareDesc tz) l) := by
  apply List.pair_sublist_insertionSort _ h
  simp only [compareDesc, hab]
  cases newDate tz b.dataHora with
  | none => rfl
  | some t => simp [dateSub, isPositive]

/-- An element that the relation puts before every member of a list is the
head after its ordered insertion. -/
theorem head_orderedInsert {α : Type} (r : α → α → Prop) [DecidableRel r] (a : α) (l : List α)
    (h : ∀ b ∈ l, r a b) : (l.orderedInsert r a).head? = some a := by
  cases l with
  | nil => rfl
  | cons b l => rw [List.orderedInsert, if_pos (h b (List.mem_cons_self _ _))]; rfl

/-- Every period filter keeps a sublist of its input. -/
theorem filterEntriesByPeriod_subset (tz now : Int) (p : Period) (l : List Entry) :
    ∀ e ∈ filterEntriesByPeriod tz now p l, e ∈ l := by
  intro e he
  cases p
  · exact he
  · exact (List.mem_filter.mp he).1
  · exact (List.mem_filter.mp he).1
  · exact (List.mem_filter.mp he).1

/-- A period filter that keeps an entry on its own keeps it at the head of any
list it heads. -/
theorem filterEntriesByPeriod_cons (tz now : Int) (p : Period) (e : Entry) (l : List Entry)
    (h : filterEntriesByPeriod tz now p [e] = [e]) :
    filterEntriesByPeriod tz now p (e :: l) = e :: filterEntriesByPeriod tz now p l := by
  cases p
  · rfl
  all_goals
    simp only [filterEntriesByPeriod, List.filter_cons, List.filter_nil] at h ⊢
    split at h
    · rename_i hc
      rw [if_pos hc]
    · exact absurd h (by simp)

/-! ## Lemmas on the chart data -/

/-- One step of the digit printer of `Nat.repr`. -/
theorem toDigitsCore_step (fuel n : Nat) (ds : List Char) :
    Nat.toDigitsCore 10 (fuel + 1) n ds =
      if n / 10 = 0 then Nat.digitChar (n % 10) :: ds
      else Nat.toDigitsCore 10 fuel (n / 10) (Nat.digitChar (n % 10) :: ds) := rfl

/-- A number 1000..9999 prints as its four digits. -/
theorem repr_four_digits (n : Nat) (h1 : 1000 ≤ n) (h2 : n ≤ 9999) :
    (Nat.repr n).data = pad4 n := by
  obtain ⟨m, rfl⟩ : ∃ m, n = m + 1000 := ⟨n - 1000, by omega⟩
  have e1 : ¬ ((m + 1000) / 10 = 0) := by omega
  have e2 : ¬ ((m + 1000) / 10 / 10 = 0) := by omega
  have e3 : ¬ ((m + 1000) / 10 / 10 / 10 = 0) := by omega
  have e4 : (m + 1000) / 10 / 10 / 10 / 10 = 0 := by omega
  have f1 : (m + 1000) / 10 / 10 / 10 % 10 = (m + 1000) / 1000 % 10 := by omega
  have f2 : (m + 1000) / 10 / 10 % 10 = (m + 1000) / 100 % 10 := by omega
  show (Nat.toDigitsCore 10 ((m + 997) + 1 + 1 + 1 + 1) (m + 1000) []) = _
  rw [toDigitsCore_step, if_neg e1, toDigitsCore_step, if_neg e2, toDigitsCore_step, if_neg e3,
    toDigitsCore_step, if_pos e4, f1, f2]
  rfl

/-- A digit character is not the separator of the locale date. -/
theorem digitChar_ne_slash (n : Nat) (h : n < 10) : Nat.digitChar n ≠ '/' := by
  interval_cases n <;> decide

/-- Reversing the three fields of `dd/mm/yyyy` into `yyyy-mm-dd`. -/
theorem joinChars_splitChars_date (a b c d w x y z : Char)
    (ha : a ≠ '/') (hb : b ≠ '/') (hc : c ≠ '/') (hd : d ≠ '/')
    (hw : w ≠ '/') (hx : x ≠ '/') (hy : y ≠ '/') (hz : z ≠ '/') :
    joinChars '-' (splitChars '/' [a, b, '/', c, d, '/', w, x, y, z]).reverse
      = [w, x, y, z, '-', c, d, '-', a, b] := by
  simp [splitChars, joinChars, ha, hb, hc, hd, hw, hx, hy, hz]

/-- From day -354285 (1000-01-01) on, the year is at least 1000. -/
theorem civilFromDays_year_ge_1000 (z : Int) (hz : -354285 ≤ z) :
    1000 ≤ (civilFromDays z).1 := by
  obtain ⟨era, yoe, doy, mp, h1, h2, h3, h4, h5, h6, h7, h8, h9⟩ := civilFromDays_aux z
  rw [h9]
  simp only
  split_ifs <;> omega

/-- The date that orders the chart, for the key of a valid date in the years
1000..9999: the UTC midnight of the local day. -/
theorem chartDate_toLocaleDateString (tz t : Int)
    (hlo : -30610224000000 ≤ t + tz * msPerMinute)
    (hhi : t + tz * msPerMinute < 253402300800000) :
    chartDate tz (toLocaleDateString tz (some t))
      = some ((t + tz * msPerMinute) / msPerDay * msPerDay) := by
  have hz0 : -354285 ≤ (t + tz * msPerMinute) / msPerDay := by
    simp only [msPerDay, msPerMinute] at hlo ⊢; omega
  have hz1 : (t + tz * msPerMinute) / msPerDay < 2932897 := by
    simp only [msPerDay, msPerMinute] at hhi ⊢; omega
  have hy0 := civilFromDays_year_ge_1000 _ hz0
  have hy1 := civilFromDays_year_le _ hz1
  have hm := civilFromDays_month ((t + tz * msPerMinute) / msPerDay)
  have hd := civilFromDays_day ((t + tz * msPerMinute) / msPerDay)
  have hrt := daysFromCivil_civilFromDays ((t + tz * msPerMinute) / msPerDay)
  simp only [chartDate, toLocaleDateString]
  generalize civilFromDays ((t + tz * msPerMinute) / msPerDay) = c at *
  obtain ⟨y, m, d⟩ := c
  simp only at hy0 hy1 hm hd hrt ⊢
  have hyear : localeYear y = pad4 y.toNat := by
    unfold localeYear
    rw [if_pos (by omega)]
    exact repr_four_digits _ (by omega) (by omega)
  have hlt : ∀ n : Nat, n % 10 < 10 := fun n => Nat.mod_lt _ (by decide)
  simp only [hyear, pad4, pad2, List.cons_append, List.nil_append]
  rw [joinChars_splitChars_date _ _ _ _ _ _ _ _
    (digitChar_ne_slash _ (hlt _)) (digitChar_ne_slash _ (hlt _))
    (digitChar_ne_slash _ (hlt _)) (digitChar_ne_slash _ (hlt _))
    (digitChar_ne_slash _ (hlt _)) (digitChar_ne_slash _ (hlt _))
    (digitChar_ne_slash _ (hlt _)) (digitChar_ne_slash _ (hlt _))]
  simp only [newDate, parseDateTime, parseDateOnly, and_self, if_true]
  rw [num4_pad _ (by omega), num2_pad _ (by omega), num2_pad _ (by omega)]
  simp only [Option.bind_eq_bind, Option.some_bind, makeDate]
  rw [if_pos (by omega)]
  have c1 : ((y.toNat : Nat) : Int) = y := Int.toNat_of_nonneg (by omega)
  have c2 : ((m.toNat : Nat) : Int) = m := Int.toNat_of_nonneg (by omega)
  have c3 : ((d.toNat : Nat) : Int) = d := Int.toNat_of_nonneg (by omega)
  rw [c1, c2, c3, hrt]
  simp

/-- Reading a property right after writing it. -/
theorem objGet_objSet_self (m : List (String × Nat)) (k : String) (v : Nat) :
    objGet (objSet m k v) k = some v := by
  induction m with
  | nil => simp [objSet, objGet]
  | cons p m ih =>
    obtain ⟨k', w⟩ := p
    by_cases h : k' = k
    · simp [objSet, objGet, h]
    · simp [objSet, objGet, h, ih]

/-- Writing a property twice keeps the second value. -/
theorem objSet_objSet (m : List (String × Nat)) (k : String) (v w : Nat) :
    objSet (objSet m k v) k w = objSet m k w := by
  induction m with
  | nil => simp [objSet]
  | cons p m ih =>
    obtain ⟨k', u⟩ := p
    by_cases h : k' = k
    · simp [objSet, h]
    · simp [objSet, h, ih]

/-- The keys after a property write. -/
theorem objSet_keys (m : List (String × Nat)) (k : String) (v : Nat) :
    (objSet m k v).map Prod.fst
      = if k ∈ m.map Prod.fst then m.map Prod.fst else m.map Prod.fst ++ [k] := by
  induction m with
  | nil => simp [objSet]
  | cons p m ih =>
    obtain ⟨k', u⟩ := p
    by_cases h : k' = k
    · simp [objSet, h]
    · have h' : ¬ k = k' := fun e => h e.symm
      by_cases hm : k ∈ m.map Prod.fst
      · simp only [objSet, h, if_false, List.map_cons, ih, hm, if_true, List.mem_cons, or_true]
      · simp only [objSet, h, if_false, List.map_cons, ih, hm, List.mem_cons, h', or_self,
          List.cons_append]

/-- A property write keeps the keys distinct. -/
theorem objSet_nodup (m : List (String × Nat)) (k : String) (v : Nat)
    (h : (m.map Prod.fst).Nodup) : ((objSet m k v).map Prod.fst).Nodup := by
  rw [objSet_keys]
  by_cases hm : k ∈ m.map Prod.fst
  · rw [if_pos hm]; exact h
  · rw [if_neg hm]
    exact List.Nodup.append h (List.nodup_singleton k) (by simpa using hm)

/-- The sum of the values after a property write. -/
theorem objSet_sum (m : List (String × Nat)) (k : String) (v : Nat) :
    ((objSet m k v).map Prod.snd).sum + (objGet m k).getD 0 = (m.map Prod.snd).sum + v := by
  induction m with
  | nil => simp [objSet, objGet]
  | cons p m ih =>
    obtain ⟨k', u⟩ := p
    by_cases h : k' = k
    · simp only [objSet, objGet, h, if_true, List.map_cons, List.sum_cons, Option.getD_some]
      omega
    · simp only [objSet, objGet, h, if_false, List.map_cons, List.sum_cons]
      omega

/-- One round of the count: the count of the entry's day goes up by one, a day
not seen before starts at one. -/
theorem countEntry_eq (tz : Int) (m : List (String × Nat)) (e : Entry) :
    countEntry tz m e
      = objSet m (toLocaleDateString tz (newDate tz e.dataHora))
          ((objGet m (toLocaleDateString tz (newDate tz e.dataHora))).getD 0 + 1) := by
  unfold countEntry
  simp only
  by_cases h : (objGet m (toLocaleDateString tz (newDate tz e.dataHora))).getD 0 = 0
  · rw [if_pos h, objGet_objSet_self, objSet_objSet, h]
    rfl
  · rw [if_neg h]

/-- The count keeps the keys distinct. -/
theorem foldl_countEntry_nodup (tz : Int) (es : List Entry) (m : List (String × Nat))
    (h : (m.map Prod.fst).Nodup) :
    ((es.foldl (countEntry tz) m).map Prod.fst).Nodup := by
  induction es generalizing m with
  | nil => exact h
  | cons e es ih =>
    rw [List.foldl_cons]
    apply ih
    rw [countEntry_eq]
    exact objSet_nodup _ _ _ h

/-- The counts add up to the number of entries counted. -/
theorem foldl_countEntry_sum (tz : Int) (es : List Entry) (m : List (String × Nat)) :
    ((es.foldl (countEntry tz) m).map Prod.snd).sum = (m.map Prod.snd).sum + es.length := by
  induction es generalizing m with
  | nil => simp
  | cons e es ih =>
    rw [List.foldl_cons, ih, countEntry_eq]
    have := objSet_sum m (toLocaleDateString tz (newDate tz e.dataHora))
      ((objGet m (toLocaleDateString tz (newDate tz e.dataHora))).getD 0 + 1)
    rw [List.length_cons]
    omega

/-- Every key of the count is the day of an entry counted or a key that was
there before. -/
theorem foldl_countEntry_keys (tz : Int) (es : List Entry) (m : List (String × Nat)) :
    ∀ k ∈ (es.foldl (countEntry tz) m).map Prod.fst,
      k ∈ m.map Prod.fst ∨ ∃ e ∈ es, k = toLocaleDateString tz (newDate tz e.dataHora) := by
  induction es generalizing m with
  | nil => intro k hk; exact Or.inl hk
  | cons e es ih =>
    intro k hk
    rw [List.foldl_cons] at hk
    rcases ih _ k hk with h | ⟨e', he', hk'⟩
    · rw [countEntry_eq, objSet_keys] at h
      split at h
      · exact Or.inl h
      · rcases List.mem_append.mp h with h | h
        · exact Or.inl h
        · exact Or.inr ⟨e, List.mem_cons_self _ _, by simpa using h⟩
    · exact Or.inr ⟨e', List.mem_cons_of_mem _ he', hk'⟩

/-- With distinct keys, reading every key gives the values in order. -/
theorem map_objGet_keys (m : List (String × Nat)) (h : (m.map Prod.fst).Nodup) :
    (m.map Prod.fst).map (fun k => (objGet m k).getD 0) = m.map Prod.snd := by
  induction m with
  | nil => rfl
  | cons p m ih =>
    obtain ⟨k, v⟩ := p
    rw [List.map_cons, List.nodup_cons] at h
    simp only [List.map_cons, objGet, if_true, Option.getD_some, List.cons.injEq, true_and]
    rw [← ih h.2]
    apply List.map_congr_left
    intro k' hk'
    have hne : ¬ k = k' := fun e => h.1 (e ▸ hk')
    simp [objGet, hne]

/-- On valid dates the ascending comparator is not positive exactly when the
first date is not later than the second. -/
theorem jsSort_ascending_eq {α : Type} (val : α → Option Int) (l : List α)
    (hvalid : ∀ a ∈ l, (val a).isSome) :
    jsSort (fun a b => dateSub (val a) (val b)) l
      = l.insertionSort (fun a b => (val a).getD 0 ≤ (val b).getD 0) := by
  unfold jsSort
  apply insertionSort_congr
  intro a ha b hb
  obtain ⟨ta, hta⟩ := Option.isSome_iff_exists.mp (hvalid a ha)
  obtain ⟨tb, htb⟩ := Option.isSome_iff_exists.mp (hvalid b hb)
  simp only [hta, htb, dateSub, Option.bind_eq_bind, Option.some_bind,
    Option.pure_def, isPositive, Option.getD_some, decide_eq_false_iff_not]
  omega

/-- The ascending sort of valid dates is in ascending order. -/
theorem jsSort_ascending_sorted {α : Type} (val : α → Option Int) (l : List α)
    (hvalid : ∀ a ∈ l, (val a).isSome) :
    (jsSort (fun a b => dateSub (val a) (val b)) l).Pairwise
      (fun a b => (val a).getD 0 ≤ (val b).getD 0) := by
  rw [jsSort_ascending_eq val l hvalid]
  haveI : IsTotal α (fun a b => (val a).getD 0 ≤ (val b).getD 0) :=
    ⟨fun a b => le_total ((val a).getD 0) ((val b).getD 0)⟩
  haveI : IsTrans α (fun a b => (val a).getD 0 ≤ (val b).getD 0) :=
    ⟨fun _ _ _ hab hbc => le_trans hab hbc⟩
  exact List.sorted_insertionSort (fun a b => (val a).getD 0 ≤ (val b).getD 0) l

/-- The key of a date depends on the local day only. -/
theorem toLocaleDateString_of_day (tz t1 t2 : Int)
    (h : (t1 + tz * msPerMinute) / msPerDay = (t2 + tz * msPerMinute) / msPerDay) :
    toLocaleDateString tz (some t1) = toLocaleDateString tz (some t2) := by
  simp only [toLocaleDateString, h]

/-- The counts of the chart add up to the number of entries. -/
theorem chartData_sum (tz : Int) (entries : List Entry) :
    ((chartDataEntriesPerDay tz entries).map (fun p => p.quantidade)).sum = entries.length := by
  have hnodup := foldl_countEntry_nodup tz entries [] List.nodup_nil
  have hsum := foldl_countEntry_sum tz entries []
  unfold chartDataEntriesPerDay
  simp only [List.map_map]
  have hperm := jsSort_perm (fun a b => dateSub (chartDate tz a) (chartDate tz b))
    ((entries.foldl (countEntry tz) []).map Prod.fst)
  rw [(hperm.map _).sum_eq]
  have := map_objGet_keys (entries.foldl (countEntry tz) []) hnodup
  simp only [Function.comp_def]
  rw [this, hsum]
  simp

/-- The dates of the chart are strictly ascending when every entry has a valid
date in the years 1000..9999. -/
theorem chartData_ascending (tz : Int) (entries : List Entry)
    (hvalid : ∀ e ∈ entries, ∃ t, newDate tz e.dataHora = some t ∧
      -30610224000000 ≤ t + tz * msPerMinute ∧ t + tz * msPerMinute < 253402300800000) :
    (chartDataEntriesPerDay tz entries).Pairwise
      (fun p q => dateLt (chartDate tz p.date) (chartDate tz q.date) = true) := by
  have hnodup := foldl_countEntry_nodup tz entries [] List.nodup_nil
  have hkeys : ∀ k ∈ (entries.foldl (countEntry tz) []).map Prod.fst,
      ∃ t, k = toLocaleDateString tz (some t) ∧
        chartDate tz k = some ((t + tz * msPerMinute) / msPerDay * msPerDay) := by
    intro k hk
    rcases foldl_countEntry_keys tz entries [] k hk with h | ⟨e, he, hke⟩
    · simp at h
    · obtain ⟨t, ht, hlo, hhi⟩ := hvalid e he
      refine ⟨t, by rw [hke, ht], ?_⟩
      rw [hke, ht]
      exact chartDate_toLocaleDateString tz t hlo hhi
  have hsome : ∀ k ∈ (entries.foldl (countEntry tz) []).map Prod.fst,
      (chartDate tz k).isSome := by
    intro k hk
    obtain ⟨t, _, hc⟩ := hkeys k hk
    rw [hc]; rfl
  have hperm := jsSort_perm (fun a b => dateSub (chartDate tz a) (chartDate tz b))
    ((entries.foldl (countEntry tz) []).map Prod.fst)
  have hsorted := jsSort_ascending_sorted (chartDate tz) _ hsome
  have hne : (jsSort (fun a b => dateSub (chartDate tz a) (chartDate tz b))
      ((entries.foldl (countEntry tz) []).map Prod.fst)).Pairwise (fun a b => a ≠ b) :=
    hperm.nodup_iff.mpr hnodup
  unfold chartDataEntriesPerDay
  simp only
  rw [List.pairwise_map]
  refine (hsorted.and hne).imp_of_mem ?_
  intro a b ha hb hab
  obtain ⟨ta, hka, hca⟩ := hkeys a (hperm.mem_iff.mp ha)
  obtain ⟨tb, hkb, hcb⟩ := hkeys b (hperm.mem_iff.mp hb)
  obtain ⟨hle, hab'⟩ := hab
  rw [hca, hcb] at hle ⊢
  simp only [Option.getD_some] at hle
  simp only [dateLt, decide_eq_true_eq]
  rcases lt_or_eq_of_le hle with hlt | heq
  · exact hlt
  · exfalso
    apply hab'
    rw [hka, hkb]
    apply toLocaleDateString_of_day
    have hpos : (0 : Int) < msPerDay := by decide
    exact Int.eq_of_mul_eq_mul_right (ne_of_gt hpos) heq

/-! ## Lemmas on the form -/

/-- The decimal string of a number 0..100, the values a range input with
`min="0"` and `max="100"` delivers, parses to that number. -/
theorem parseInt_toString (k : Nat) (h : k ≤ 100) : parseInt (toString k) = some (k : Int) := by
  interval_cases k <;> decide

/-- What `parseInt(value) || 0` yields: 0 for `NaN`, else the parsed number. -/
theorem orInt_parseInt (value : String) :
    (parseInt value = none → orInt (parseInt value) 0 = 0) ∧
    (∀ n, parseInt value = some n → orInt (parseInt value) 0 = n) := by
  constructor
  · intro h
    rw [h]; rfl
  · intro n h
    rw [h]
    by_cases hn : n = 0
    · simp [orInt, hn]
    · simp [orInt, hn]

/-- A form change whose value, if it is for a range input, parses to nothing
or to a number 0..100 keeps both scores of the form in 0..100. -/
theorem handleChange_scores (name value : String) (s : AppState)
    (hvalue : (name = "eficacia" ∨ name = "intensidade") →
      ∀ n, parseInt value = some n → 0 ≤ n ∧ n ≤ 100)
    (hs : 0 ≤ s.formData.eficacia ∧ s.formData.eficacia ≤ 100 ∧
      0 ≤ s.formData.intensidade ∧ s.formData.intensidade ≤ 100) :
    0 ≤ (handleChange name value s).formData.eficacia ∧
    (handleChange name value s).formData.eficacia ≤ 100 ∧
    0 ≤ (handleChange name value s).formData.intensidade ∧
    (handleChange name value s).formData.intensidade ≤ 100 := by
  have hor : (name = "eficacia" ∨ name = "intensidade") →
      0 ≤ orInt (parseInt value) 0 ∧ orInt (parseInt value) 0 ≤ 100 := by
    intro hname
    cases hp : parseInt value with
    | none => exact ⟨by decide, by decide⟩
    | some n =>
      have hn := hvalue hname n hp
      rw [← hp, (orInt_parseInt value).2 n hp]
      exact hn
  unfold handleChange
  simp only
  split_ifs with h1 h2 h3 h4 h5 h6 h7 h8
  · exact ⟨(hor (Or.inl h1)).1, (hor (Or.inl h1)).2, hs.2.2.1, hs.2.2.2⟩
  · exact ⟨hs.1, hs.2.1, (hor (Or.inr h2)).1, (hor (Or.inr h2)).2⟩
  all_goals exact hs

/-- A form change leaves `entries` as it is. -/
theorem handleChanges_entries (changes : List (String × String)) (s : AppState) :
    (handleChanges changes s).entries = s.entries := by
  unfold handleChanges
  induction changes generalizing s with
  | nil => rfl
  | cons c cs ih => rw [List.foldl_cons, ih]; rfl

/-- A sequence of such form changes keeps both scores of the form in 0..100. -/
theorem handleChanges_scores (changes : List (String × String)) (s : AppState)
    (hvalues : ∀ c ∈ changes, (c.1 = "eficacia" ∨ c.1 = "intensidade") →
      ∀ n, parseInt c.2 = some n → 0 ≤ n ∧ n ≤ 100)
    (hs : 0 ≤ s.formData.eficacia ∧ s.formData.eficacia ≤ 100 ∧
      0 ≤ s.formData.intensidade ∧ s.formData.intensidade ≤ 100) :
    0 ≤ (handleChanges changes s).formData.eficacia ∧
    (handleChanges changes s).formData.eficacia ≤ 100 ∧
    0 ≤ (handleChanges changes s).formData.intensidade ∧
    (handleChanges changes s).formData.intensidade ≤ 100 := by
  unfold handleChanges
  induction changes generalizing s with
  | nil => exact hs
  | cons c cs ih =>
    rw [List.foldl_cons]
    apply ih
    · intro c' hc'
      exact hvalues c' (List.mem_cons_of_mem _ hc')
    · exact handleChange_scores c.1 c.2 s (hvalues c (List.mem_cons_self _ _)) hs

/-! ## Lemmas on the create -/

/-- On the local path of `handleSubmit` (remote store unavailable, or the
remote insert failed) the new list is a new entry followed by the previous
list unchanged; the new entry carries the draft's `situacao`, `pensamento`,
`emocao`, `sintomasFisicos`, `estrategia`, `eficacia` and `intensidade`, and its
`dataHora` is the draft's when that is not the empty string and otherwise the
string `new Date().toISOString().slice(0, 16)`. -/
theorem handleSubmit_local_prepends (remote : Remote) (tNew tId : Int) (s : AppState)
    (hremote : remote ≠ Remote.succeeds) :
    ∃ e : Entry, (handleSubmit remote tNew tId s).entries = e :: s.entries ∧
      e.situacao = some s.formData.situacao ∧
      e.pensamento = some s.formData.pensamento ∧
      e.emocao = some s.formData.emocao ∧
      e.sintomasFisicos = some s.formData.sintomasFisicos ∧
      e.estrategia = some s.formData.estrategia ∧
      e.eficacia = some s.formData.eficacia ∧
      e.intensidade = some s.formData.intensidade ∧
      (s.formData.dataHora ≠ "" → e.dataHora = s.formData.dataHora) ∧
      (s.formData.dataHora = "" → e.dataHora = slice0 (toISOString tNew) 16) := by
  refine ⟨localEntry tId (newEntry tNew s.formData), ?_, rfl, rfl, rfl, rfl, rfl, rfl, rfl, ?_, ?_⟩
  · cases remote
    · rfl
    · rfl
    · exact absurd rfl hremote
  · intro h
    simp [localEntry, newEntry, h]
  · intro h
    simp [localEntry, newEntry, h]

/-- The default `dataHora` of a blank draft, read as a date in the zone `tz`:
the creation time truncated to the minute, moved back by the zone offset. The
string is the UTC wall clock and `new Date` reads it as local time. -/
theorem newEntry_default_reading (tz tNew : Int) (f : FormData) (hblank : f.dataHora = "")
    (h0 : 0 ≤ tNew) (h1 : tNew < 253402300800000) :
    newDate tz (newEntry tNew f).dataHora
      = some (tNew - tNew % msPerMinute - tz * msPerMinute) := by
  have hd : (newEntry tNew f).dataHora = slice0 (toISOString tNew) 16 := by
    simp [newEntry, hblank]
  rw [hd]
  exact newDate_of_parseDateTime tz _ _ (parseDateTime_toISOString tNew h0 h1)

/-- The default `dataHora` of a blank draft has sixteen characters. -/
theorem newEntry_default_length (tNew : Int) (f : FormData) (hblank : f.dataHora = "") :
    (newEntry tNew f).dataHora.length = 16 := by
  have hd : (newEntry tNew f).dataHora = slice0 (toISOString tNew) 16 := by
    simp [newEntry, hblank]
  rw [hd]
  simp only [slice0, toISOString, String.length, List.length_take, List.length_append,
    List.length_cons, List.length_nil, pad2, pad3, isoYear]
  split_ifs <;> simp [pad4, pad6]

/-! ## The claims -/

/-- C1 (code defect), the failing input evaluated. One hour east of UTC, with
the remote store unavailable, a draft with `situacao` and `eficacia` filled in
and `dataHora` blank is submitted at 2024-01-16T00:00:00.123Z, which is 01:00
local time, into a list of one entry. The new list is the new entry, with the
draft's fields, followed by the old entry, as C1 says. But the new entry's
`dataHora` is `2024-01-16T00:00`, the UTC wall clock: read as local time, as
the filter, the sort, the chart and the export read it, it is
2024-01-15T23:00Z and is shown as `16/01/2024, 00:00:00`, an hour before the
creation time, whose local date-time string is `2024-01-16T01:00` and which is
shown as `16/01/2024, 01:00:00`. -/
theorem handleSubmit_default_dataHora_off_by_zone :
    (handleSubmit Remote.unavailable 1705363200123 1705363200125
        (handleChanges [("situacao", "exame"), ("eficacia", "30")]
          ⟨[entryJan15], some [entryJan15], initialFormData⟩)).entries
      = [⟨EntryId.num 1705363200125, "2024-01-16T00:00", some "exame", some "", some "",
          some "", some "", some 30, some 50⟩, entryJan15] ∧
    (handleSubmit Remote.unavailable 1705363200123 1705363200125
        (handleChanges [("situacao", "exame"), ("eficacia", "30")]
          ⟨[entryJan15], some [entryJan15], initialFormData⟩)).entries.map
        (fun e => newDate 60 e.dataHora)
      = [some 1705359600000, some 1705309200000] ∧
    (1705363200123 - 1705363200123 % msPerMinute : Int) = 1705363200000 ∧
    newDate 60 "2024-01-16T01:00" = some 1705363200000 ∧
    (exportRows 60 (handleSubmit Remote.unavailable 1705363200123 1705363200125
        (handleChanges [("situacao", "exame"), ("eficacia", "30")]
          ⟨[entryJan15], some [entryJan15], initialFormData⟩)).entries).map
        (fun r => r.dataHora)
      = ["16/01/2024, 00:00:00", "15/01/2024, 10:00:00"] ∧
    toLocaleString 60 (some 1705363200123) = "16/01/2024, 01:00:00" :=
  ⟨by decide, by decide, by decide, by decide, by decide, by decide⟩

/-- C2: on the local path of `deleteEntry` (remote store unavailable, or the
remote delete failed) the new list is exactly the entries of the previous list
whose id differs from `id`, in their original order, so that no entry with
that id is left. -/
theorem deleteEntry_local_removes (remote : Remote) (id : EntryId) (s : AppState)
    (hremote : remote ≠ Remote.succeeds) :
    (deleteEntry remote id s).entries = s.entries.filter (fun e => decide (e.id ≠ id)) ∧
    (∀ e ∈ (deleteEntry remote id s).entries, e.id ≠ id) ∧
    (∀ e ∈ s.entries, e.id ≠ id → e ∈ (deleteEntry remote id s).entries) := by
  have h : (deleteEntry remote id s).entries
      = s.entries.filter (fun e => decide (e.id ≠ id)) := by
    cases remote
    · rfl
    · rfl
    · exact absurd rfl hremote
  refine ⟨h, ?_, ?_⟩
  · intro e he
    rw [h, List.mem_filter] at he
    exact of_decide_eq_true he.2
  · intro e he hne
    rw [h, List.mem_filter]
    exact ⟨he, decide_eq_true hne⟩

/-- Witness of C2: deleting id 1 from a two-entry list with the remote store
unavailable. -/
theorem deleteEntry_local_removes_witness :
    Remote.unavailable ≠ Remote.succeeds ∧
    ((deleteEntry Remote.unavailable (EntryId.num 1)
        ⟨[entryJan01, entryJan15], none, initialFormData⟩).entries
      = (⟨[entryJan01, entryJan15], none, initialFormData⟩ : AppState).entries.filter
          (fun e => decide (e.id ≠ EntryId.num 1)) ∧
    (∀ e ∈ (deleteEntry Remote.unavailable (EntryId.num 1)
        ⟨[entryJan01, entryJan15], none, initialFormData⟩).entries, e.id ≠ EntryId.num 1) ∧
    (∀ e ∈ (⟨[entryJan01, entryJan15], none, initialFormData⟩ : AppState).entries,
      e.id ≠ EntryId.num 1 →
      e ∈ (deleteEntry Remote.unavailable (EntryId.num 1)
        ⟨[entryJan01, entryJan15], none, initialFormData⟩).entries)) :=
  ⟨by decide, deleteEntry_local_removes Remote.unavailable (EntryId.num 1)
    ⟨[entryJan01, entryJan15], none, initialFormData⟩ (by decide)⟩

/-- C3: after every state-changing step of the Entry Store (a snapshot
delivery, a local-path create, a local-path delete) the list written to the
`entries` slot of the local mirror is the in-memory list. -/
theorem mirror_eq_entries (tz : Int) (docs : List Doc) (tNew tId : Int) (id : EntryId)
    (s : AppState) :
    (onSnapshot tz docs s).mirror = some (onSnapshot tz docs s).entries ∧
    (handleSubmit Remote.unavailable tNew tId s).mirror
      = some (handleSubmit Remote.unavailable tNew tId s).entries ∧
    (handleSubmit Remote.fails tNew tId s).mirror
      = some (handleSubmit Remote.fails tNew tId s).entries ∧
    (deleteEntry Remote.unavailable id s).mirror
      = some (deleteEntry Remote.unavailable id s).entries ∧
    (deleteEntry Remote.fails id s).mirror
      = some (deleteEntry Remote.fails id s).entries :=
  ⟨rfl, rfl, rfl, rfl, rfl⟩

/-- C4: `filterEntriesByPeriod` keeps exactly the entries, in input order,
whose `dataHora` is at or after the threshold of the period: the date built
from the local year, month and day of `now` for `day`, which is the start of
the local day of `now` for a clock at or after 1970-01-01 local time, `now`
minus 7 times 24 hours for `week`, `now` minus 30 times 24 hours for `month`;
`all` keeps every entry. Of the entries dated `2024-01-01T10:00` and
`2024-01-15T10:00`, period `week` at `2024-01-16T00:00` keeps only the second. -/
theorem filterEntriesByPeriod_spec (tz now : Int) (entries : List Entry) :
    filterEntriesByPeriod tz now Period.all entries = entries ∧
    filterEntriesByPeriod tz now Period.day entries
      = entries.filter (fun e => dateGe (newDate tz e.dataHora) (some (localDateOf tz now))) ∧
    (0 ≤ now + tz * msPerMinute →
      localDateOf tz now = (now + tz * msPerMinute) / msPerDay * msPerDay - tz * msPerMinute) ∧
    filterEntriesByPeriod tz now Period.week entries
      = entries.filter (fun e => dateGe (newDate tz e.dataHora)
          (some (now - 7 * 24 * 60 * 60 * 1000))) ∧
    filterEntriesByPeriod tz now Period.month entries
      = entries.filter (fun e => dateGe (newDate tz e.dataHora)
          (some (now - 30 * 24 * 60 * 60 * 1000))) ∧
    newDate tz "2024-01-16T00:00" = some (1705363200000 - tz * msPerMinute) ∧
    filterEntriesByPeriod tz (1705363200000 - tz * msPerMinute) Period.week
      [entryJan01, entryJan15] = [entryJan15] := by
  refine ⟨rfl, rfl, localDateOf_eq tz now, rfl, rfl, ?_, ?_⟩
  · exact newDate_of_parseDateTime tz _ _ (by decide)
  · have h1 : newDate tz entryJan01.dataHora = some (1704103200000 - tz * msPerMinute) :=
      newDate_of_parseDateTime tz _ _ (by decide)
    have h2 : newDate tz entryJan15.dataHora = some (1705312800000 - tz * msPerMinute) :=
      newDate_of_parseDateTime tz _ _ (by decide)
    simp only [filterEntriesByPeriod, List.filter, h1, h2, dateGe]
    have d1 : decide (1705363200000 - tz * msPerMinute - 7 * 24 * 60 * 60 * 1000
        ≤ 1704103200000 - tz * msPerMinute) = false := by
      apply decide_eq_false; omega
    have d2 : decide (1705363200000 - tz * msPerMinute - 7 * 24 * 60 * 60 * 1000
        ≤ 1705312800000 - tz * msPerMinute) = true := by
      apply decide_eq_true; omega
    rw [d1, d2]

/-- Witness of C4: the clock at 2024-01-16T00:30 UTC in a zone one hour east;
the local day starts at 2024-01-15T23:00 UTC, and period `day` keeps neither
entry of 2024-01-01 and 2024-01-15. -/
theorem filterEntriesByPeriod_spec_witness :
    0 ≤ (1705365000000 : Int) + 60 * msPerMinute ∧
    localDateOf 60 1705365000000 = 1705359600000 ∧
    filterEntriesByPeriod 60 1705365000000 Period.day [entryJan01, entryJan15] = [] ∧
    filterEntriesByPeriod 60 1705365000000 Period.month [entryJan01, entryJan15]
      = [entryJan01, entryJan15] :=
  ⟨by decide,
    ((filterEntriesByPeriod_spec 60 1705365000000 [entryJan01, entryJan15]).2.2.1
      (by decide)).trans (by decide),
    (filterEntriesByPeriod_spec 60 1705365000000 [entryJan01, entryJan15]).2.1.trans (by decide),
    (filterEntriesByPeriod_spec 60 1705365000000 [entryJan01, entryJan15]).2.2.2.2.1.trans
      (by decide)⟩

/-- C5: at a fixed clock, filtering twice with the same period gives the same
list as filtering once, and period `all` returns its input. -/
theorem filterEntriesByPeriod_idempotent (tz now : Int) (p : Period) (entries : List Entry) :
    filterEntriesByPeriod tz now p (filterEntriesByPeriod tz now p entries)
      = filterEntriesByPeriod tz now p entries ∧
    filterEntriesByPeriod tz now Period.all entries = entries := by
  refine ⟨?_, rfl⟩
  cases p <;> simp [filterEntriesByPeriod, List.filter_filter]

/-- C6, as stated, fails: for a list that holds an entry whose `dataHora` is
not a date, the chart data has a point that carries no date, so its dates are
not strictly ascending. -/
theorem chartData_undated_not_ascending :
    chartDataEntriesPerDay 0 [entryUndated, entryJan01]
      = [⟨"Invalid Date", 1⟩, ⟨"01/01/2024", 1⟩] ∧
    ¬ (chartDataEntriesPerDay 0 [entryUndated, entryJan01]).Pairwise
      (fun p q => dateLt (chartDate 0 p.date) (chartDate 0 q.date) = true) :=
  ⟨by decide, by decide⟩

/-- C6 (amended): the counts of `chartDataEntriesPerDay` add up to the number
of filtered entries, and when every entry has a valid `dataHora` in the years
1000..9999 (local time) the dates of its points are strictly ascending. -/
theorem chartDataEntriesPerDay_spec (tz : Int) (entries : List Entry) :
    ((chartDataEntriesPerDay tz entries).map (fun p => p.quantidade)).sum = entries.length ∧
    ((∀ e ∈ entries, ∃ t, newDate tz e.dataHora = some t ∧
        -30610224000000 ≤ t + tz * msPerMinute ∧ t + tz * msPerMinute < 253402300800000) →
      (chartDataEntriesPerDay tz entries).Pairwise
        (fun p q => dateLt (chartDate tz p.date) (chartDate tz q.date) = true)) :=
  ⟨chartData_sum tz entries, chartData_ascending tz entries⟩

/-- Witness of C6 (amended): three entries on two days, in a zone one hour
east of UTC. -/
theorem chartDataEntriesPerDay_spec_witness :
    ((chartDataEntriesPerDay 60 [entryJan15, entryJan01, entryJan15b]).map
      (fun p => p.quantidade)).sum = [entryJan15, entryJan01, entryJan15b].length ∧
    (∀ e ∈ [entryJan15, entryJan01, entryJan15b], ∃ t, newDate 60 e.dataHora = some t ∧
        -30610224000000 ≤ t + 60 * msPerMinute ∧ t + 60 * msPerMinute < 253402300800000) ∧
    (chartDataEntriesPerDay 60 [entryJan15, entryJan01, entryJan15b]).Pairwise
      (fun p q => dateLt (chartDate 60 p.date) (chartDate 60 q.date) = true) :=
  have hvalid : ∀ e ∈ [entryJan15, entryJan01, entryJan15b], ∃ t,
      newDate 60 e.dataHora = some t ∧
        -30610224000000 ≤ t + 60 * msPerMinute ∧ t + 60 * msPerMinute < 253402300800000 := by
    intro e he
    simp only [List.mem_cons, List.mem_singleton, List.not_mem_nil, or_false] at he
    rcases he with rfl | rfl | rfl
    · exact ⟨1705312800000 - 60 * msPerMinute, by decide, by decide, by decide⟩
    · exact ⟨1704103200000 - 60 * msPerMinute, by decide, by decide, by decide⟩
    · exact ⟨1705312800000 - 60 * msPerMinute, by decide, by decide, by decide⟩
  ⟨(chartDataEntriesPerDay_spec 60 [entryJan15, entryJan01, entryJan15b]).1, hvalid,
    (chartDataEntriesPerDay_spec 60 [entryJan15, entryJan01, entryJan15b]).2 hvalid⟩

/-- C7, as stated, fails: two entries dated the same minute are permutations
of each other in either order, and the stable sort returns each order as it
came, so the two sorted lists differ. -/
theorem sortedEntries_order_dependent :
    [entryJan15, entryJan15b].Perm [entryJan15b, entryJan15] ∧
    sortedEntries 0 [entryJan15, entryJan15b] = [entryJan15, entryJan15b] ∧
    sortedEntries 0 [entryJan15b, entryJan15] = [entryJan15b, entryJan15] ∧
    sortedEntries 0 [entryJan15, entryJan15b] ≠ sortedEntries 0 [entryJan15b, entryJan15] :=
  ⟨List.Perm.swap _ _ _, by decide, by decide, by decide⟩

/-- C7 (amended): the snapshot handlers and the display use the same sort by
`dataHora`, and on a list whose entries all have a valid `dataHora` that sort
returns a permutation of its input in descending order of date and is stable
(entries with the same date keep their input order). For two lists that are
permutations of each other it returns the same sequence of dates, and the
identical list when no two entries share a date. -/
theorem sortedEntries_order_independent (tz : Int) (l1 l2 : List Entry) (docs : List Doc)
    (s : AppState) (hperm : l1.Perm l2)
    (hvalid : ∀ e ∈ l1, (newDate tz e.dataHora).isSome) :
    (onSnapshot tz docs s).entries = sortedEntries tz (docs.map docEntry) ∧
    (sortedEntries tz l1).Perm l1 ∧
    (sortedEntries tz l1).Pairwise
      (fun a b => dateGe (newDate tz a.dataHora) (newDate tz b.dataHora) = true) ∧
    (∀ a b : Entry, newDate tz a.dataHora = newDate tz b.dataHora →
      [a, b].Sublist l1 → [a, b].Sublist (sortedEntries tz l1)) ∧
    (sortedEntries tz l1).map (fun e => newDate tz e.dataHora)
      = (sortedEntries tz l2).map (fun e => newDate tz e.dataHora) ∧
    ((l1.map (fun e => newDate tz e.dataHora)).Nodup →
      sortedEntries tz l1 = sortedEntries tz l2) := by
  have hvalid2 : ∀ e ∈ l2, (newDate tz e.dataHora).isSome :=
    fun e he => hvalid e (hperm.mem_iff.mpr he)
  have hdates : ∀ l : List Entry, (∀ e ∈ l, (newDate tz e.dataHora).isSome) →
      (jsSort (compareDesc tz) l).map (fun e => newDate tz e.dataHora)
        = ((jsSort (compareDesc tz) l).map (instant tz)).map some := by
    intro l hl
    rw [List.map_map]
    apply List.map_congr_left
    intro e he
    exact newDate_eq_instant tz e (hl e ((jsSort_perm _ l).mem_iff.mp he))
  refine ⟨rfl, jsSort_perm _ l1, ?_, ?_, ?_, ?_⟩
  · refine (jsSort_compareDesc_sorted tz l1 hvalid).imp_of_mem ?_
    intro a b ha hb hab
    rw [newDate_eq_instant tz a (hvalid a ((jsSort_perm _ l1).mem_iff.mp ha)),
      newDate_eq_instant tz b (hvalid b ((jsSort_perm _ l1).mem_iff.mp hb))]
    simpa [dateGe] using hab
  · intro a b hab h
    exact jsSort_compareDesc_stable tz l1 a b hab h
  · unfold sortedEntries
    rw [hdates l1 hvalid, hdates l2 hvalid2, jsSort_compareDesc_instants tz l1 l2 hperm hvalid]
  · intro hnodup
    exact jsSort_compareDesc_unique tz l1 l2 hperm hvalid hnodup

/-- Witness of C7 (amended): two entries of different dates sort to the same
list from either order, and in a list that also holds a second entry of
2024-01-15 the two entries of that date keep their input order. -/
theorem sortedEntries_order_independent_witness :
    [entryJan01, entryJan15].Perm [entryJan15, entryJan01] ∧
    (∀ e ∈ [entryJan01, entryJan15], (newDate 0 e.dataHora).isSome) ∧
    ([entryJan01, entryJan15].map (fun e => newDate 0 e.dataHora)).Nodup ∧
    sortedEntries 0 [entryJan01, entryJan15] = sortedEntries 0 [entryJan15, entryJan01] ∧
    (sortedEntries 0 [entryJan01, entryJan15]).Pairwise
      (fun a b => dateGe (newDate 0 a.dataHora) (newDate 0 b.dataHora) = true) ∧
    (∀ e ∈ [entryJan15, entryJan01, entryJan15b], (newDate 0 e.dataHora).isSome) ∧
    [entryJan15, entryJan15b].Sublist [entryJan15, entryJan01, entryJan15b] ∧
    [entryJan15, entryJan15b].Sublist (sortedEntries 0 [entryJan15, entryJan01, entryJan15b]) :=
  ⟨List.Perm.swap _ _ _, by decide, by decide,
    (sortedEntries_order_independent 0 [entryJan01, entryJan15] [entryJan15, entryJan01] []
      ⟨[], none, initialFormData⟩ (List.Perm.swap _ _ _) (by decide)).2.2.2.2.2 (by decide),
    (sortedEntries_order_independent 0 [entryJan01, entryJan15] [entryJan15, entryJan01] []
      ⟨[], none, initialFormData⟩ (List.Perm.swap _ _ _) (by decide)).2.2.1,
    by decide, by decide,
    (sortedEntries_order_independent 0 [entryJan15, entryJan01, entryJan15b]
      [entryJan15, entryJan01, entryJan15b] [] ⟨[], none, initialFormData⟩
      (List.Perm.refl _) (by decide)).2.2.2.1 entryJan15 entryJan15b rfl (by decide)⟩

/-- C8, as stated, fails. With the remote store unavailable and the zone at
UTC, a blank-dated entry created at 2024-01-16T00:00:00.123Z into a list that
holds an entry dated 2030 is put in front of the list but displayed second,
below that entry. -/
theorem handleSubmit_blank_not_on_top :
    (handleSubmit Remote.unavailable 1705363200123 1705363200125
        ⟨[entry2030], some [entry2030], initialFormData⟩).entries.map (fun e => e.id)
      = [EntryId.num 1705363200125, EntryId.num 4] ∧
    (sortedEntries 0 (filterEntriesByPeriod 0 1705363200123 Period.all
        (handleSubmit Remote.unavailable 1705363200123 1705363200125
          ⟨[entry2030], some [entry2030], initialFormData⟩).entries)).map (fun e => e.id)
      = [EntryId.num 4, EntryId.num 1705363200125] :=
  ⟨by decide, by decide⟩

/-- C8 (amended): with the remote store unavailable, a draft with
`dataHora = ""` puts the new entry in front of the existing list, with a
default `dataHora` of sixteen characters. When the new entry passes the period
filter and every existing entry has a valid `dataHora` that is not later than
the valid `dataHora` of the new entry, the new entry is at the top of the
descending-sorted display list. -/
theorem handleSubmit_blank_on_top (tz tNew tId now : Int) (p : Period) (s : AppState)
    (hblank : s.formData.dataHora = "") :
    (handleSubmit Remote.unavailable tNew tId s).entries
      = localEntry tId (newEntry tNew s.formData) :: s.entries ∧
    (localEntry tId (newEntry tNew s.formData)).dataHora.length = 16 ∧
    (filterEntriesByPeriod tz now p [localEntry tId (newEntry tNew s.formData)]
        = [localEntry tId (newEntry tNew s.formData)] →
      (∀ x ∈ s.entries, dateGe (newDate tz (localEntry tId (newEntry tNew s.formData)).dataHora)
        (newDate tz x.dataHora) = true) →
      (sortedEntries tz (filterEntriesByPeriod tz now p
        (handleSubmit Remote.unavailable tNew tId s).entries)).head?
        = some (localEntry tId (newEntry tNew s.formData))) := by
  refine ⟨rfl, newEntry_default_length tNew s.formData hblank, ?_⟩
  intro hpass hle
  have hent : (handleSubmit Remote.unavailable tNew tId s).entries
      = localEntry tId (newEntry tNew s.formData) :: s.entries := rfl
  rw [hent, filterEntriesByPeriod_cons tz now p _ _ hpass]
  unfold sortedEntries jsSort
  rw [List.insertionSort]
  apply head_orderedInsert
  intro b hb
  have hb' : b ∈ s.entries :=
    filterEntriesByPeriod_subset tz now p _ b ((List.mem_insertionSort _).mp hb)
  have hge := hle b hb'
  simp only [compareDesc]
  generalize newDate tz (localEntry tId (newEntry tNew s.formData)).dataHora = de at hge ⊢
  generalize newDate tz b.dataHora = db at hge ⊢
  cases de with
  | none => simp [dateGe] at hge
  | some te =>
    cases db with
    | none => simp [dateGe] at hge
    | some tb =>
      simp only [dateGe, decide_eq_true_eq] at hge
      simp only [dateSub, Option.bind_eq_bind, Option.some_bind, Option.pure_def, isPositive,
        decide_eq_false_iff_not]
      omega

/-- Witness of C8 (amended): a blank draft created in front of the entries of
2024-01-15 and 2024-01-01, period `week` a second later; the new entry gets a
`dataHora` of sixteen characters, it passes the filter, both existing entries
are validly dated and not later, and the new entry is at the top of the
display list. -/
theorem handleSubmit_blank_on_top_witness :
    (⟨[entryJan15, entryJan01], none, initialFormData⟩ : AppState).formData.dataHora = "" ∧
    (handleSubmit Remote.unavailable 1705363200123 1705363200125
        ⟨[entryJan15, entryJan01], none, initialFormData⟩).entries
      = localEntry 1705363200125 (newEntry 1705363200123 initialFormData)
          :: [entryJan15, entryJan01] ∧
    (localEntry 1705363200125 (newEntry 1705363200123 initialFormData)).dataHora.length = 16 ∧
    filterEntriesByPeriod 0 1705363201123 Period.week
        [localEntry 1705363200125 (newEntry 1705363200123 initialFormData)]
      = [localEntry 1705363200125 (newEntry 1705363200123 initialFormData)] ∧
    (∀ x ∈ [entryJan15, entryJan01],
      dateGe (newDate 0 (localEntry 1705363200125 (newEntry 1705363200123 initialFormData)).dataHora)
        (newDate 0 x.dataHora) = true) ∧
    (sortedEntries 0 (filterEntriesByPeriod 0 1705363201123 Period.week
        (handleSubmit Remote.unavailable 1705363200123 1705363200125
          ⟨[entryJan15, entryJan01], none, initialFormData⟩).entries)).head?
      = some (localEntry 1705363200125 (newEntry 1705363200123 initialFormData)) :=
  ⟨rfl,
    (handleSubmit_blank_on_top 0 1705363200123 1705363200125 1705363201123
      Period.week ⟨[entryJan15, entryJan01], none, initialFormData⟩ rfl).1,
    (handleSubmit_blank_on_top 0 1705363200123 1705363200125 1705363201123
      Period.week ⟨[entryJan15, entryJan01], none, initialFormData⟩ rfl).2.1,
    by decide, by decide,
    (handleSubmit_blank_on_top 0 1705363200123 1705363200125 1705363201123
      Period.week ⟨[entryJan15, entryJan01], none, initialFormData⟩ rfl).2.2
      (by decide) (by decide)⟩

/-- C9, as stated, fails: an entry without `sintomasFisicos` is exported with
an empty `Sintomas Físicos` cell, not with `-`. -/
theorem exportRows_missing_text_is_empty :
    entrySparse.sintomasFisicos = none ∧
    (exportRows 0 [entrySparse]).map (fun r => r.sintomasFisicos) = [""] ∧
    (exportRows 0 [entrySparse]).map (fun r => r.sintomasFisicos) ≠ ["-"] :=
  ⟨rfl, by decide, by decide⟩

/-- C9 (amended): `exportRows` maps every filtered entry to exactly one row, in
order. In a row the date column is the localized `dataHora`, a text column is
the entry's text, or the empty string when the entry has none, `Intensidade`
is the entry's number, or 0 when the entry has none, and `Eficácia` is copied
from the entry as it is. Two entries give two rows. -/
theorem exportRows_spec (tz : Int) (entries : List Entry) (e1 e2 : Entry) :
    (exportRows tz entries).length = entries.length ∧
    List.Forall₂ (fun (e : Entry) (r : Row) =>
      r.dataHora = toLocaleString tz (newDate tz e.dataHora) ∧
      r.situacao = e.situacao.getD "" ∧
      r.pensamento = e.pensamento.getD "" ∧
      r.emocao = e.emocao.getD "" ∧
      r.sintomasFisicos = e.sintomasFisicos.getD "" ∧
      r.estrategia = e.estrategia.getD "" ∧
      r.eficacia = e.eficacia ∧
      r.intensidade = e.intensidade.getD 0) entries (exportRows tz entries) ∧
    (exportRows tz [e1, e2]).length = 2 := by
  have hs : ∀ x : Option String, orString x "" = x.getD "" := by
    intro x
    cases x with
    | none => rfl
    | some v =>
      by_cases hv : v = ""
      · simp [orString, hv]
      · simp [orString, hv]
  have hi : ∀ x : Option Int, orInt x 0 = x.getD 0 := by
    intro x
    cases x with
    | none => rfl
    | some v =>
      by_cases hv : v = 0
      · simp [orInt, hv]
      · simp [orInt, hv]
  refine ⟨by simp [exportRows], ?_, rfl⟩
  unfold exportRows
  rw [List.forall₂_map_right_iff]
  apply List.forall₂_same.mpr
  intro e _
  simp only [hs, hi, and_self]

/-- C10, as stated, fails: two local-path creates for which `Date.now()`
returns the same millisecond. The list after the first has distinct ids, the
list after the second holds the same id twice. -/
theorem handleSubmit_duplicate_id :
    ((handleSubmit Remote.unavailable 1705363200125 1705363200125
        ⟨[], none, initialFormData⟩).entries.map (fun e => e.id)).Nodup ∧
    ¬ ((handleSubmit Remote.unavailable 1705363200125 1705363200125
        (handleSubmit Remote.unavailable 1705363200125 1705363200125
          ⟨[], none, initialFormData⟩)).entries.map (fun e => e.id)).Nodup :=
  ⟨by decide, by decide⟩

/-- C10 (amended): if the ids of the list are pairwise distinct they are still
pairwise distinct after `deleteEntry`, and after `handleSubmit` whenever no
entry of the list already has the id that `Date.now()` returns. -/
theorem ids_nodup_preserved (remote : Remote) (tNew tId : Int) (id : EntryId) (s : AppState)
    (hnodup : (s.entries.map (fun e => e.id)).Nodup) :
    ((deleteEntry remote id s).entries.map (fun e => e.id)).Nodup ∧
    ((∀ e ∈ s.entries, e.id ≠ EntryId.num tId) →
      ((handleSubmit remote tNew tId s).entries.map (fun e => e.id)).Nodup) := by
  constructor
  · cases remote
    · exact (hnodup.sublist ((List.filter_sublist _).map _))
    · exact (hnodup.sublist ((List.filter_sublist _).map _))
    · exact hnodup
  · intro hfresh
    have hcons : ((localEntry tId (newEntry tNew s.formData) :: s.entries).map
        (fun e => e.id)).Nodup := by
      rw [List.map_cons, List.nodup_cons]
      refine ⟨?_, hnodup⟩
      intro hmem
      obtain ⟨e, he, heq⟩ := List.mem_map.mp hmem
      exact hfresh e he heq
    cases remote
    · exact hcons
    · exact hcons
    · exact hnodup

/-- Witness of C10 (amended): on a one-entry list, a delete and a create whose
`Date.now()` is not the id of the entry. -/
theorem ids_nodup_preserved_witness :
    ((⟨[entryJan01], none, initialFormData⟩ : AppState).entries.map (fun e => e.id)).Nodup ∧
    ((deleteEntry Remote.unavailable (EntryId.num 1)
        ⟨[entryJan01], none, initialFormData⟩).entries.map (fun e => e.id)).Nodup ∧
    (∀ e ∈ (⟨[entryJan01], none, initialFormData⟩ : AppState).entries,
        e.id ≠ EntryId.num 1705363200125) ∧
    ((handleSubmit Remote.unavailable 1705363200123 1705363200125
        ⟨[entryJan01], none, initialFormData⟩).entries.map (fun e => e.id)).Nodup :=
  ⟨by decide,
    (ids_nodup_preserved Remote.unavailable 1705363200123 1705363200125 (EntryId.num 1)
      ⟨[entryJan01], none, initialFormData⟩ (by decide)).1,
    by decide,
    (ids_nodup_preserved Remote.unavailable 1705363200123 1705363200125 (EntryId.num 1)
      ⟨[entryJan01], none, initialFormData⟩ (by decide)).2 (by decide)⟩

/-- C11, as stated, fails: from the initial form, the change of `eficacia` to
`150` and of `intensidade` to `-5` followed by a local-path create gives an
entry with `eficacia` 150 and `intensidade` -5, both outside 0..100. -/
theorem handleChange_score_out_of_range :
    (⟨[], none, initialFormData⟩ : AppState).formData = initialFormData ∧
    (handleSubmit Remote.unavailable 1705363200123 1705363200125
        (handleChanges [("eficacia", "150"), ("intensidade", "-5")]
          ⟨[], none, initialFormData⟩)).entries.map (fun e => (e.eficacia, e.intensidade))
      = [(some 150, some (-5))] :=
  ⟨rfl, by decide⟩

/-- C11 (amended): start from the initial form state (both scores 50) and apply
any sequence of form changes in which every value for `eficacia` or
`intensidade` is either non-numeric (`parseInt` finds no digit) or parses to a
number 0..100. Then the record built by a create has both scores in 0..100, and
on the local path the entry put in front of the list carries them. The decimal
strings of 0..100, which the two range inputs deliver, are such values, and a
non-numeric value sets the score to 0. -/
theorem created_scores_in_range (changes : List (String × String)) (remote : Remote)
    (tNew tId : Int) (s : AppState)
    (hinit : s.formData = initialFormData)
    (hvalues : ∀ c ∈ changes, (c.1 = "eficacia" ∨ c.1 = "intensidade") →
      ∀ n, parseInt c.2 = some n → 0 ≤ n ∧ n ≤ 100)
    (hremote : remote ≠ Remote.succeeds) :
    (0 ≤ (newEntry tNew (handleChanges changes s).formData).eficacia ∧
      (newEntry tNew (handleChanges changes s).formData).eficacia ≤ 100 ∧
      0 ≤ (newEntry tNew (handleChanges changes s).formData).intensidade ∧
      (newEntry tNew (handleChanges changes s).formData).intensidade ≤ 100) ∧
    (∃ (e : Entry) (a b : Int),
      (handleSubmit remote tNew tId (handleChanges changes s)).entries = e :: s.entries ∧
      e.eficacia = some a ∧ e.intensidade = some b ∧
      0 ≤ a ∧ a ≤ 100 ∧ 0 ≤ b ∧ b ≤ 100) ∧
    (∀ k : Nat, k ≤ 100 → parseInt (toString k) = some (k : Int)) ∧
    (∀ (value : String) (st : AppState), parseInt value = none →
      (handleChange "eficacia" value st).formData.eficacia = 0 ∧
      (handleChange "intensidade" value st).formData.intensidade = 0) := by
  have hs : 0 ≤ s.formData.eficacia ∧ s.formData.eficacia ≤ 100 ∧
      0 ≤ s.formData.intensidade ∧ s.formData.intensidade ≤ 100 := by
    rw [hinit]; decide
  have hr := handleChanges_scores changes s hvalues hs
  refine ⟨hr, ?_, parseInt_toString, ?_⟩
  · refine ⟨localEntry tId (newEntry tNew (handleChanges changes s).formData),
      (handleChanges changes s).formData.eficacia,
      (handleChanges changes s).formData.intensidade, ?_, rfl, rfl, hr⟩
    rw [← handleChanges_entries changes s]
    cases remote
    · rfl
    · rfl
    · exact absurd rfl hremote
  · intro value st hnone
    simp [handleChange, hnone, orInt]

/-- Witness of C11 (amended): from the initial form, a non-numeric value for
`eficacia`, the value `73` for `intensidade` and a text for `situacao`, then a
create with the remote store unavailable: the entry has the scores 0 and 73. -/
theorem created_scores_in_range_witness :
    (⟨[], none, initialFormData⟩ : AppState).formData = initialFormData ∧
    (∀ c ∈ [("eficacia", "abc"), ("intensidade", "73"), ("situacao", "x")],
      (c.1 = "eficacia" ∨ c.1 = "intensidade") →
      ∀ n, parseInt c.2 = some n → 0 ≤ n ∧ n ≤ 100) ∧
    Remote.unavailable ≠ Remote.succeeds ∧
    (handleSubmit Remote.unavailable 1705363200123 1705363200125
        (handleChanges [("eficacia", "abc"), ("intensidade", "73"), ("situacao", "x")]
          ⟨[], none, initialFormData⟩)).entries.map (fun e => (e.eficacia, e.intensidade))
      = [(some 0, some 73)] ∧
    ∃ (e : Entry) (a b : Int),
      (handleSubmit Remote.unavailable 1705363200123 1705363200125
        (handleChanges [("eficacia", "abc"), ("intensidade", "73"), ("situacao", "x")]
          ⟨[], none, initialFormData⟩)).entries
        = e :: (⟨[], none, initialFormData⟩ : AppState).entries ∧
      e.eficacia = some a ∧ e.intensidade = some b ∧
      0 ≤ a ∧ a ≤ 100 ∧ 0 ≤ b ∧ b ≤ 100 :=
  have hvalues : ∀ c ∈ [("eficacia", "abc"), ("intensidade", "73"), ("situacao", "x")],
      (c.1 = "eficacia" ∨ c.1 = "intensidade") →
      ∀ n, parseInt c.2 = some n → 0 ≤ n ∧ n ≤ 100 := by
    intro c hc _ n hn
    simp only [List.mem_cons, List.mem_singleton, List.not_mem_nil, or_false] at hc
    rcases hc with rfl | rfl | rfl
    · have h : parseInt "abc" = none := by decide
      rw [h] at hn
      cases hn
    · have h : parseInt "73" = some 73 := by decide
      rw [h] at hn
      cases hn
      decide
    · have h : parseInt "x" = none := by decide
      rw [h] at hn
      cases hn
  ⟨rfl, hvalues, by decide, by decide,
    (created_scores_in_range [("eficacia", "abc"), ("intensidade", "73"), ("situacao", "x")]
      Remote.unavailable 1705363200123 1705363200125 ⟨[], none, initialFormData⟩
      rfl hvalues (by decide)).2.1⟩

end PsiRegister
